import Mathlib

/-!
Shallow embedding of the grid_universe simulation kernel (an immutable
entity-component-system grid world) together with proofs about its step
pipeline, damage resolution, portal teleportation, pushing, pathfinding,
status-effect selection and garbage collection.

Component stores (pyrsistent PMap keyed by integer entity ids) are embedded
as association lists with sorted unique keys maintained by the update
operation; persistent sets (PSet) of entity ids are embedded as lists with
set semantics.  Python ints are embedded as Int; fallible code (raise)
returns Except.
-/

namespace GridUniverse

/-- Entity identity: an opaque integer (grid_universe.types.EntityID). -/
abbrev EntityID := Nat

/-- Embedding of pyrsistent PMap[EntityID, a]: association list, kept with
sorted unique keys by the update operation so that iteration order is
deterministic. -/
abbrev Pm (α : Type) := List (EntityID × α)

namespace Pm

/-- Lookup (PMap.get / dict indexing). -/
def get {α : Type} : Pm α → EntityID → Option α
  | [], _ => none
  | (k, v) :: rest, i => if k = i then some v else get rest i

/-- Key membership (the Python `in` operator on a PMap). -/
def contains {α : Type} (m : Pm α) (i : EntityID) : Bool :=
  (get m i).isSome

/-- Insert or replace, keeping keys sorted (PMap.set). -/
def set {α : Type} : Pm α → EntityID → α → Pm α
  | [], i, v => [(i, v)]
  | (k, w) :: rest, i, v =>
    if i < k then (i, v) :: (k, w) :: rest
    else if i = k then (i, v) :: rest
    else (k, w) :: set rest i v

/-- Key list in store order (PMap.keys). -/
def keys {α : Type} (m : Pm α) : List EntityID :=
  List.map (fun kv => kv.1) m

/-- Keep only the entries whose key is in `alive` (the GC filter
`{k: v for k, v in m.items() if k in alive}`). -/
def filterKeys {α : Type} (m : Pm α) (alive : List EntityID) : Pm α :=
  List.filter (fun kv => alive.contains kv.1) m

end Pm

/-- Embedding of pyrsistent PSet[EntityID]: a list with set semantics. -/
abbrev Ps := List EntityID

namespace Ps

/-- PSet.add: insert in sorted position when not already present. -/
def add : Ps → EntityID → Ps
  | [], i => [i]
  | k :: rest, i =>
    if i < k then i :: k :: rest
    else if i = k then k :: rest
    else k :: add rest i

/-- PSet.remove (only called on present elements in the source). -/
def remove (s : Ps) (i : EntityID) : Ps :=
  List.filter (fun k => k ≠ i) s

/-- Set union (Python `set(a) | set(b)`): left list then missing right
elements, deterministic order. -/
def union (a b : Ps) : Ps :=
  a ++ List.filter (fun k => ¬ a.contains k) b

end Ps

/-! ## Components (grid_universe.components) -/

/-- Grid position component (components/properties/position.py). -/
structure Position where
  x : Int
  y : Int
deriving DecidableEq, Repr

/-- Effect granting immunity to damage (components/effects/immunity.py);
an empty marker dataclass. -/
structure Immunity where
deriving DecidableEq, Repr

/-- Effect allowing passing through obstacles (components/effects/phasing.py);
an empty marker dataclass. -/
structure Phasing where
deriving DecidableEq, Repr

/-- Movement multiplier effect (components/effects/speed.py). -/
structure Speed where
  multiplier : Int
deriving DecidableEq, Repr

/-- Remaining time steps of an effect (components/effects/time_limit.py). -/
structure TimeLimit where
  amount : Int
deriving DecidableEq, Repr

/-- Remaining uses of an effect (components/effects/usage_limit.py). -/
structure UsageLimit where
  amount : Int
deriving DecidableEq, Repr

/-- Agent marker (components/properties/agent.py). -/
structure Agent where
deriving DecidableEq, Repr

/-- Built-in appearance names (components/properties/appearance.py). -/
inductive AppearanceName where
  | none | boots | box | coin | core | door | exitName | floor | gem | ghost
  | human | key | lava | lock | monster | portal | shield | spike | wall
deriving DecidableEq, Repr

/-- Rendering appearance properties (components/properties/appearance.py). -/
structure Appearance where
  name : AppearanceName
  priority : Int
  icon : Bool
  background : Bool
deriving DecidableEq, Repr

/-- Blocking marker (components/properties/blocking.py). -/
structure Blocking where
deriving DecidableEq, Repr

/-- Collectible marker (components/properties/collectible.py). -/
structure Collectible where
deriving DecidableEq, Repr

/-- Collidable marker (components/properties/collidable.py). -/
structure Collidable where
deriving DecidableEq, Repr

/-- Movement cost component (components/properties/cost.py). -/
structure Cost where
  amount : Int
deriving DecidableEq, Repr

/-- Damage amount component (components/properties/damage.py). -/
structure Damage where
  amount : Int
deriving DecidableEq, Repr

/-- Dead marker (components/properties/dead.py). -/
structure Dead where
deriving DecidableEq, Repr

/-- Exit marker (components/properties, imported as Exit by the state). -/
structure ExitC where
deriving DecidableEq, Repr

/-- Health component (components/properties/health.py). -/
structure Health where
  health : Int
  max_health : Int
deriving DecidableEq, Repr

/-- Inventory component: set of item entity ids
(components/properties/inventory.py). -/
structure Inventory where
  item_ids : Ps
deriving DecidableEq, Repr

/-- Key component (components/properties/key.py). -/
structure Key where
  key_id : String
deriving DecidableEq, Repr

/-- Lethal-damage marker (components/properties/lethal_damage.py, imported
as LethalDamage by the state; an empty marker dataclass). -/
structure LethalDamage where
deriving DecidableEq, Repr

/-- Locked component (components/properties/locked.py). -/
structure Locked where
  key_id : String
deriving DecidableEq, Repr

/-- Axis of autonomous movement (components/properties/moving.py). -/
inductive MovingAxis where
  | horizontal | vertical
deriving DecidableEq, Repr

/-- Autonomous movement component (components/properties/moving.py). -/
structure Moving where
  axis : MovingAxis
  direction : Int
  bounce : Bool
  speed : Int
  prev_position : Option Position
deriving DecidableEq, Repr

/-- Strategy selector for pathfinding (components/properties/pathfinding.py). -/
inductive PathfindingType where
  | straight_line | path
deriving DecidableEq, Repr

/-- Pathfinding property component (components/properties/pathfinding.py). -/
structure Pathfinding where
  target : Option EntityID
  type : PathfindingType
deriving DecidableEq, Repr

/-- Portal pairing component (components/properties/portal.py). -/
structure Portal where
  pair_entity : EntityID
deriving DecidableEq, Repr

/-- Pushable marker (components/properties/pushable.py). -/
structure Pushable where
deriving DecidableEq, Repr

/-- Required marker (components/properties/required.py). -/
structure Required where
deriving DecidableEq, Repr

/-- Rewardable component (components/properties/rewardable.py). -/
structure Rewardable where
  amount : Int
deriving DecidableEq, Repr

/-- Status effect set component (components/properties/status.py). -/
structure Status where
  effect_ids : Ps
deriving DecidableEq, Repr

/-- One damage-hit record: (target, damager, turn)
(grid_universe.systems.damage.DamageHit). -/
abbrev DamageHit := EntityID × EntityID × Int

/-- Trail store: PMap from Position to PSet of entity ids
(the State.trail field). -/
abbrev Trail := List (Position × Ps)

namespace Trail

/-- Lookup with empty-set default (trail.get(pos, pset())). -/
def getD (t : Trail) (p : Position) : Ps :=
  match t with
  | [] => []
  | (q, s) :: rest => if q = p then s else getD rest p

/-- Replace the set at a position, appending a fresh key at the end. -/
def set : Trail → Position → Ps → Trail
  | [], p, s => [(p, s)]
  | (q, w) :: rest, p, s =>
    if q = p then (q, s) :: rest else (q, w) :: set rest p s

end Trail

/-- Player actions (grid_universe.actions.Action). -/
inductive Action where
  | up | down | left | right | use_key | pick_up | wait
deriving DecidableEq, Repr

/-- The four directional actions (grid_universe.actions.MOVE_ACTIONS). -/
def MOVE_ACTIONS : List Action := [.up, .down, .left, .right]

/-- Immutable ECS world state (grid_universe.state.State).  The `move_fn`
and `objective_fn` fields of the source dataclass are function-valued and
never replaced by any system; they are embedded as explicit parameters of
the functions that consult them (MoveFnSpec / ObjectiveFn below) instead of
state fields, so that the state stays a first-order datatype. -/
structure State where
  width : Int
  height : Int
  immunity : Pm Immunity
  phasing : Pm Phasing
  speed : Pm Speed
  time_limit : Pm TimeLimit
  usage_limit : Pm UsageLimit
  agent : Pm Agent
  appearance : Pm Appearance
  blocking : Pm Blocking
  collectible : Pm Collectible
  collidable : Pm Collidable
  cost : Pm Cost
  damage : Pm Damage
  dead : Pm Dead
  exit : Pm ExitC
  health : Pm Health
  inventory : Pm Inventory
  key : Pm Key
  lethal_damage : Pm LethalDamage
  locked : Pm Locked
  moving : Pm Moving
  pathfinding : Pm Pathfinding
  portal : Pm Portal
  position : Pm Position
  pushable : Pm Pushable
  required : Pm Required
  rewardable : Pm Rewardable
  status : Pm Status
  prev_position : Pm Position
  trail : Trail
  damage_hits : List DamageHit
  turn : Int
  score : Int
  win : Bool
  lose : Bool
  message : Option String
  turn_limit : Option Int
  seed : Option Int
deriving DecidableEq, Repr

/-- Movement-strategy plugin (grid_universe.types.MoveFn) together with the
result of the physical-identity test `state.move_fn is wrap_around_move_fn`
performed by compute_destination. -/
structure MoveFnSpec where
  is_wrap_around : Bool
  fn : State → EntityID → Action → List Position

/-- Objective-function plugin (grid_universe.types.ObjectiveFn). -/
abbrev ObjectiveFn := State → EntityID → Bool

/-! ## Grid utilities (grid_universe/utils/grid.py) -/

/-- Return true if pos lies within the level rectangle (is_in_bounds). -/
def is_in_bounds (state : State) (pos : Position) : Bool :=
  0 ≤ pos.x && pos.x < state.width && 0 ≤ pos.y && pos.y < state.height

/-- Toroidal wrap for coordinates (wrap_position); Int.emod matches Python
modulo for positive divisors. -/
def wrap_position (x y width height : Int) : Position :=
  ⟨x % width, y % height⟩

/-! ## ECS queries (grid_universe/utils/ecs.py) -/

/-- Entity ids at a given position (entities_at; the source builds a reverse
index, with identical membership semantics). -/
def entities_at (state : State) (pos : Position) : List EntityID :=
  List.map (fun kv => kv.1)
    (List.filter (fun kv : EntityID × Position => kv.2 = pos) state.position)

/-- Entity ids at pos that appear in the given component key set
(entities_with_components_at, specialised to the one store every caller
passes). -/
def entities_with_components_at (state : State) (pos : Position)
    (component_keys : List EntityID) : List EntityID :=
  List.filter (fun i => component_keys.contains i) (entities_at state pos)

/-- Return true if any blocking entity occupies pos (is_blocked_at).  The
two flags mirror the check_collidable / check_pushable keyword arguments. -/
def is_blocked_at (state : State) (pos : Position)
    (check_collidable : Bool) (check_pushable : Bool) : Bool :=
  List.any (entities_at state pos) (fun other_id =>
    Pm.contains state.blocking other_id
    || (check_pushable && Pm.contains state.pushable other_id)
    || (check_collidable && Pm.contains state.collidable other_id))

/-! ## Trail utilities (grid_universe/utils/trail.py) -/

/-- Merge current positions of the given entities into the historic trail
(get_augmented_trail). -/
def get_augmented_trail (state : State) (entity_ids : Ps) : Trail :=
  let withCurrent := List.foldl
    (fun (acc : Trail) (eid : EntityID) =>
      match Pm.get state.position eid with
      | none => acc
      | some pos => Trail.set acc pos (Ps.add (Trail.getD acc pos) eid))
    ([] : Trail) entity_ids
  List.foldl
    (fun (acc : Trail) (kv : Position × Ps) =>
      Trail.set acc kv.1
        (List.foldl (fun s e => Ps.add s e) (Trail.getD acc kv.1) kv.2))
    withCurrent state.trail

/-- Record entity_id as having entered new_pos (add_trail_position). -/
def add_trail_position (state : State) (entity_id : EntityID)
    (new_pos : Position) : State :=
  { state with trail :=
      (Trail.set state.trail new_pos
        (Ps.add (Trail.getD state.trail new_pos) entity_id)) }

/-! ## Terminal utilities (grid_universe/utils/terminal.py) -/

/-- Agent exists and has a position (is_valid_state). -/
def is_valid_state (state : State) (agent_id : EntityID) : Bool :=
  decide (0 < state.agent.length) && (Pm.get state.position agent_id).isSome

/-- State already satisfies win/lose or agent is dead (is_terminal_state). -/
def is_terminal_state (state : State) (agent_id : EntityID) : Bool :=
  state.win || state.lose || Pm.contains state.dead agent_id

/-! ## Status utilities (grid_universe/utils/status.py)

The source passes one or several effect component maps and consults them
only through key-membership tests; the embedding therefore passes the key
lists of the requested stores. -/

/-- The relevance filter of get_status_effect: the effect id is present in
at least one requested effect store. -/
def status_effect_relevant (effects : List (List EntityID))
    (eid : EntityID) : Bool :=
  List.any effects (fun eff_map => eff_map.contains eid)

/-- The expiry filter of get_status_effect: neither the time limit nor the
usage limit has run out. -/
def status_effect_unexpired (time_limit : Pm TimeLimit)
    (usage_limit : Pm UsageLimit) (eid : EntityID) : Bool :=
  let expired_time : Bool := match Pm.get time_limit eid with
    | some t => decide (t.amount ≤ 0)
    | none => false
  let expired_usage : Bool := match Pm.get usage_limit eid with
    | some u => decide (u.amount ≤ 0)
    | none => false
  !expired_time && !expired_usage

/-- The surviving effect ids of get_status_effect: relevant and not
expired, in effect-set order. -/
def status_effect_survivors (effect_ids : Ps)
    (effects : List (List EntityID)) (time_limit : Pm TimeLimit)
    (usage_limit : Pm UsageLimit) : List EntityID :=
  List.filter (status_effect_unexpired time_limit usage_limit)
    (List.filter (status_effect_relevant effects) effect_ids)

/-- Select a valid effect from effect_ids matching any provided store
(get_status_effect).  Filters to ids present in at least one requested
store, drops expired effects, sorts for determinism, prefers effects
without usage limits, otherwise takes the first remaining one. -/
def get_status_effect (effect_ids : Ps) (effects : List (List EntityID))
    (time_limit : Pm TimeLimit) (usage_limit : Pm UsageLimit) :
    Option EntityID :=
  let relevant := List.filter (status_effect_relevant effects) effect_ids
  if relevant.isEmpty then none
  else
    let valid := List.filter
      (status_effect_unexpired time_limit usage_limit) relevant
    if valid.isEmpty then none
    else
      let sorted := List.insertionSort (fun a b => a ≤ b) valid
      match List.find? (fun eid => !Pm.contains usage_limit eid) sorted with
      | some eid => some eid
      | none => sorted.head?

/-- Consume one use from a usage-limited effect if present
(use_status_effect). -/
def use_status_effect (effect_id : EntityID)
    (usage_limit : Pm UsageLimit) : Pm UsageLimit :=
  match Pm.get usage_limit effect_id with
  | none => usage_limit
  | some u => Pm.set usage_limit effect_id ⟨u.amount - 1⟩

/-- Select and consume an effect (use_status_effect_if_present). -/
def use_status_effect_if_present (effect_ids : Ps)
    (effects : List (List EntityID)) (time_limit : Pm TimeLimit)
    (usage_limit : Pm UsageLimit) : Pm UsageLimit × Option EntityID :=
  match get_status_effect effect_ids effects time_limit usage_limit with
  | none => (usage_limit, none)
  | some effect_id => (use_status_effect effect_id usage_limit, some effect_id)

/-! ## Health application (grid_universe/utils/health.py, absent from src) -/

/-- Modelled from the spec: grid_universe.utils.health.apply_damage_and
_check_death is imported by the damage system but its file is not under
src/.  Per section 4.2 of the specification, applying damage subtracts the
damager's damage amount from health (floored at zero) and, if the damager
carries a lethal marker, marks the target dead regardless of remaining
health; death is also checked when health is exhausted. -/
def apply_damage_and_check_death (health : Pm Health) (dead : Pm Dead)
    (target_id : EntityID) (damage : Int) (lethal : Bool) :
    Pm Health × Pm Dead :=
  match Pm.get health target_id with
  | none => (health, dead)
  | some h =>
    let new_amount := max (h.health - damage) 0
    let health := Pm.set health target_id ⟨new_amount, h.max_health⟩
    let dead := if lethal || new_amount ≤ 0
      then Pm.set dead target_id ⟨⟩ else dead
    (health, dead)

/-! ## Math utilities (grid_universe/utils/math.py, absent from src) -/

/-- Modelled from the spec: grid_universe.utils.math.argmax is imported by
the straight-line pathfinding mode but its file is not under src/.  Per
section 4.4 of the specification ties are broken by enumeration order, so
argmax returns the index of the first maximum. -/
def argmax (values : List Int) : Nat :=
  match values with
  | [] => 0
  | v :: rest =>
    let r := List.foldl
      (fun (acc : Nat × Int × Nat) v =>
        let (best_i, best_v, i) := acc
        if best_v < v then (i, v, i + 1) else (best_i, best_v, i + 1))
      ((0 : Nat), v, (1 : Nat)) rest
    r.1

/-! ## Status effect lifecycle (grid_universe/systems/status.py) -/

/-- Decrement per-effect time limits present in a status (tick_time_limit). -/
def tick_time_limit (status : Status) (time_limit : Pm TimeLimit) :
    Pm TimeLimit :=
  List.foldl
    (fun tl effect_id =>
      match Pm.get tl effect_id with
      | none => tl
      | some t => Pm.set tl effect_id ⟨t.amount - 1⟩)
    time_limit status.effect_ids

/-- Effect time or usage limit has reached zero (is_effect_expired). -/
def is_effect_expired (effect_id : EntityID) (time_limit : Pm TimeLimit)
    (usage_limit : Pm UsageLimit) : Bool :=
  (match Pm.get time_limit effect_id with
    | some t => decide (t.amount ≤ 0)
    | none => false)
  || (match Pm.get usage_limit effect_id with
    | some u => decide (u.amount ≤ 0)
    | none => false)

/-- Remove orphaned or expired effects from one status (garbage_collect).
The source first drops ids absent from every effect store (iterating
EffectType: immunity, phasing, speed), then drops expired ids. -/
def status_garbage_collect (state : State) (time_limit : Pm TimeLimit)
    (usage_limit : Pm UsageLimit) (status : Status) : Status :=
  let effect_ids := List.filter
    (fun effect_id =>
      Pm.contains state.immunity effect_id
      || Pm.contains state.phasing effect_id
      || Pm.contains state.speed effect_id)
    status.effect_ids
  let effect_ids := List.filter
    (fun effect_id => !is_effect_expired effect_id time_limit usage_limit)
    effect_ids
  ⟨effect_ids⟩

/-- Phase 1: decrement all active time limits (status_tick_system). -/
def status_tick_system (state : State) : State :=
  let state_time_limit := List.foldl
    (fun tl (kv : EntityID × Status) => tick_time_limit kv.2 tl)
    state.time_limit state.status
  { state with time_limit := state_time_limit }

/-- Phase 2: prune orphaned / expired effects from statuses
(status_gc_system). -/
def status_gc_system (state : State) : State :=
  let state_status := List.foldl
    (fun st (kv : EntityID × Status) =>
      Pm.set st kv.1
        (status_garbage_collect state state.time_limit state.usage_limit kv.2))
    state.status state.status
  { state with status := state_status }

/-! ## Tile economy (grid_universe/systems/tile.py) -/

/-- Entity ids at pos with the given component keys but not collectible
(get_noncollectible_entities). -/
def get_noncollectible_entities (state : State) (pos : Position)
    (component_keys : List EntityID) : List EntityID :=
  List.filter
    (fun i => component_keys.contains i && !Pm.contains state.collectible i)
    (entities_at state pos)

/-- Increase score for rewardable non-collectible entities at the agent
tile (tile_reward_system). -/
def tile_reward_system (state : State) (eid : EntityID) : State :=
  match Pm.get state.position eid with
  | none => state
  | some pos =>
    if !is_valid_state state eid || is_terminal_state state eid then state
    else
      let reward_ids :=
        get_noncollectible_entities state pos (Pm.keys state.rewardable)
      if reward_ids.isEmpty then state
      else
        let total := List.foldl
          (fun acc rid =>
            acc + (match Pm.get state.rewardable rid with
              | some r => r.amount
              | none => 0))
          (0 : Int) reward_ids
        { state with score := state.score + total }

/-- Decrease score for cost-bearing non-collectible entities at the agent
tile (tile_cost_system). -/
def tile_cost_system (state : State) (eid : EntityID) : State :=
  match Pm.get state.position eid with
  | none => state
  | some pos =>
    if !is_valid_state state eid || is_terminal_state state eid then state
    else
      let cost_ids :=
        get_noncollectible_entities state pos (Pm.keys state.cost)
      if cost_ids.isEmpty then state
      else
        let total := List.foldl
          (fun acc cid =>
            acc + (match Pm.get state.cost cid with
              | some c => c.amount
              | none => 0))
          (0 : Int) cost_ids
        { state with score := state.score - total }

/-! ## Terminal systems (grid_universe/systems/terminal.py) -/

/-- Set win flag if the agent meets the objective function (win_system). -/
def win_system (objective_fn : ObjectiveFn) (state : State)
    (agent_id : EntityID) : State :=
  if !is_valid_state state agent_id || is_terminal_state state agent_id
  then state
  else if objective_fn state agent_id then { state with win := true }
  else state

/-- Set lose flag if the agent is dead (lose_system). -/
def lose_system (state : State) (agent_id : EntityID) : State :=
  if Pm.contains state.dead agent_id && !state.lose
  then { state with lose := true }
  else state

/-- Advance the turn counter and set lose on turn-limit expiry
(turn_system). -/
def turn_system (state : State) : State :=
  let state := { state with turn := state.turn + 1 }
  match state.turn_limit with
  | some limit =>
    if limit ≤ state.turn && !state.win then { state with lose := true }
    else state
  | none => state

/-! ## Portal system (grid_universe/systems/portal.py) -/

/-- The entering-entity computation of portal_system_entity: collidable
entities from the augmented trail at the portal cell whose previous
position differs from their current one and whose current position is the
portal cell. -/
def portal_entering (state : State) (augmented_trail : Trail)
    (portal_position : Position) : List EntityID :=
  List.filter
    (fun eid =>
      Pm.get state.prev_position eid ≠ Pm.get state.position eid
      && Pm.get state.position eid = some portal_position)
    (List.filter (fun eid => Pm.contains state.collidable eid)
      (Trail.getD augmented_trail portal_position))

/-- Teleport entities entering the specified portal to its pair
(portal_system_entity). -/
def portal_system_entity (state : State) (augmented_trail : Trail)
    (portal_id : EntityID) : State :=
  match Pm.get state.portal portal_id, Pm.get state.position portal_id with
  | some portal, some portal_position =>
    (match Pm.get state.position portal.pair_entity with
     | none => state
     | some pair_position =>
       if is_blocked_at state pair_position true true then state
       else
         let state_position := List.foldl
           (fun pm eid => Pm.set pm eid pair_position)
           state.position
           (portal_entering state augmented_trail portal_position)
         { state with position := state_position })
  | _, _ => state

/-- Apply portal teleportation for all portals (portal_system).  The
augmented trail is computed once from the incoming state; the loop then
iterates the portal store of that state. -/
def portal_system (state : State) : State :=
  let augmented_trail :=
    get_augmented_trail state (Pm.keys state.collidable)
  List.foldl
    (fun s portal_id => portal_system_entity s augmented_trail portal_id)
    state (Pm.keys state.portal)

/-! ## Push system (grid_universe/systems/push.py) -/

/-- Compute the push destination two cells along the direction of travel
(compute_destination): toroidal wrap when the wrap movement strategy is
active, otherwise a straight bounds check. -/
def compute_destination (move_fn : MoveFnSpec) (state : State)
    (current_pos next_pos : Position) : Option Position :=
  let dx := next_pos.x - current_pos.x
  let dy := next_pos.y - current_pos.y
  let dest_x := next_pos.x + dx
  let dest_y := next_pos.y + dy
  if move_fn.is_wrap_around then
    some (wrap_position dest_x dest_y state.width state.height)
  else
    let target_position : Position := ⟨dest_x, dest_y⟩
    if !is_in_bounds state target_position then none
    else some target_position

/-- Attempt to push all pushable entities at next_pos (push_system).  The
source constructs but discards a trail update for each pushed entity (the
returned state of add_trail_position is not kept), so the embedding updates
positions only. -/
def push_system (move_fn : MoveFnSpec) (state : State) (eid : EntityID)
    (next_pos : Position) : State :=
  match Pm.get state.position eid with
  | none => state
  | some current_pos =>
    let pushable_ids :=
      entities_with_components_at state next_pos (Pm.keys state.pushable)
    if pushable_ids.isEmpty then state
    else
      match compute_destination move_fn state current_pos next_pos with
      | none => state
      | some push_to =>
        if is_blocked_at state push_to true true then state
        else
          let new_position := List.foldl
            (fun pm pushable_id => Pm.set pm pushable_id push_to)
            (Pm.set state.position eid next_pos) pushable_ids
          { state with position := new_position }

/-! ## Pathfinding (grid_universe/systems/pathfinding.py) -/

/-- Frontier of the A* search: a priority queue of
(priority, tiebreaker, position) ordered lexicographically, embedded as a
sorted list. -/
abbrev Frontier := List (Int × Nat × Position)

/-- Ordered insertion into the frontier (PriorityQueue.put); unique
tiebreakers make the order total. -/
def frontier_put : Frontier → Int × Nat × Position → Frontier
  | [], e => [e]
  | f :: rest, e =>
    if e.1 < f.1 || (e.1 = f.1 && e.2.1 < f.2.1) then e :: f :: rest
    else f :: frontier_put rest e

/-- Association list keyed by positions (the cost_so_far and prev_pos
dictionaries of the A* search). -/
abbrev PosMap (α : Type) := List (Position × α)

/-- Dictionary lookup for PosMap. -/
def posmap_get {α : Type} : PosMap α → Position → Option α
  | [], _ => none
  | (k, v) :: rest, p => if k = p then some v else posmap_get rest p

/-- Dictionary update for PosMap. -/
def posmap_set {α : Type} : PosMap α → Position → α → PosMap α
  | [], p, v => [(p, v)]
  | (k, w) :: rest, p, v =>
    if k = p then (k, v) :: rest else (k, w) :: posmap_set rest p v

/-- Manhattan distance heuristic of the A* search. -/
def manhattan (a b : Position) : Int :=
  (a.x - b.x).natAbs + (a.y - b.y).natAbs

/-- Neighbour offsets of the A* search, in source order. -/
def astar_neighbors : List (Int × Int) := [(0, 1), (0, -1), (1, 0), (-1, 0)]

/-- In-bounds unblocked neighbours (get_valid_next_positions); blocking
ignores collidable-only entities. -/
def get_valid_next_positions (state : State) (position : Position) :
    List Position :=
  List.filter
    (fun pos => is_in_bounds state pos && !is_blocked_at state pos false true)
    (List.map (fun d => Position.mk (position.x + d.1) (position.y + d.2))
      astar_neighbors)

/-- Main loop of the A* search, with explicit fuel standing in for the
while-not-empty loop (the fuel chosen by the caller exceeds every possible
number of queue operations, so exhaustion is unreachable and falls back to
the no-path result). -/
def astar_loop (state : State) (goal : Position) :
    Nat → Frontier → PosMap Position → PosMap Int → Nat →
    PosMap Position
  | 0, _, prev_pos, _, _ => prev_pos
  | _ + 1, [], prev_pos, _, _ => prev_pos
  | fuel + 1, (_, _, current) :: frontier, prev_pos, cost_so_far, tiebreaker =>
    if current = goal then prev_pos
    else
      let step := List.foldl
        (fun (acc : Frontier × PosMap Position × PosMap Int × Nat) next_pos =>
          let (fr, pp, csf, tb) := acc
          let new_cost : Int := (match posmap_get csf current with
            | some c => c
            | none => (0 : Int)) + 1
          let better := match posmap_get csf next_pos with
            | none => true
            | some old => decide (new_cost < old)
          if better then
            let csf := posmap_set csf next_pos new_cost
            let priority := new_cost + manhattan next_pos goal
            let fr := frontier_put fr (priority, tb, next_pos)
            let pp := posmap_set pp next_pos current
            (fr, pp, csf, tb + 1)
          else (fr, pp, csf, tb))
        (frontier, prev_pos, cost_so_far, tiebreaker)
        (get_valid_next_positions state current)
      astar_loop state goal fuel step.1 step.2.1 step.2.2.1 step.2.2.2

/-- Walk the prev_pos chain backwards from goal to start, with fuel
bounding the walk (the chain built by the search is acyclic). -/
def astar_reconstruct (prev_pos : PosMap Position) (start : Position) :
    Nat → Position → List Position → List Position
  | 0, _, acc => acc
  | fuel + 1, current, acc =>
    if current = start then acc
    else match posmap_get prev_pos current with
      | none => acc
      | some p => astar_reconstruct prev_pos start fuel p (current :: acc)

/-- Compute the next step toward the target using A* with Manhattan
distance (get_astar_next_position). -/
def get_astar_next_position (state : State) (entity_id target_id : EntityID) :
    Position :=
  match Pm.get state.position entity_id, Pm.get state.position target_id with
  | some start, some goal =>
    if start = goal then start
    else
      let cells := ((state.width.natAbs + 1) * (state.height.natAbs + 1))
      let fuel := cells * cells * 8 + 8
      let prev_pos := astar_loop state goal fuel [(0, 0, start)] []
        [(start, 0)] 1
      (match posmap_get prev_pos goal with
       | none => start
       | some _ =>
         match astar_reconstruct prev_pos start (cells + 1) goal [] with
         | [] => start
         | p :: _ => p)
  | _, _ => ⟨0, 0⟩

/-- Compute the next step toward the target using the straight-line
heuristic (get_straight_line_next_position): project the seeker-to-target
vector on the four cardinal directions and take the argmax. -/
def get_straight_line_next_position (state : State)
    (entity_id target_id : EntityID) : Position :=
  match Pm.get state.position entity_id, Pm.get state.position target_id with
  | some entity_pos, some target_pos =>
    let dvec : Int × Int := (target_pos.x - entity_pos.x, target_pos.y - entity_pos.y)
    let actions : List (Int × Int) := [(0, 1), (0, -1), (1, 0), (-1, 0)]
    let values := List.map (fun a : Int × Int => a.1 * dvec.1 + a.2 * dvec.2) actions
    let best_action := (actions.getD (argmax values) (0, 0))
    ⟨entity_pos.x + best_action.1, entity_pos.y + best_action.2⟩
  | _, _ => ⟨0, 0⟩

/-- Apply pathfinding for a single entity (entity_pathfinding).  Mirrors
the source exactly: the usage-limit map updated by the phasing-evasion
consumption is computed and then dropped, because the source returns only
the unchanged state from that branch. -/
def entity_pathfinding (state : State) (usage_limit : Pm UsageLimit)
    (entity_id : EntityID) : State :=
  match Pm.get state.position entity_id, Pm.get state.pathfinding entity_id with
  | some _, some pf =>
    (match pf.target with
     | none => state
     | some pathfinding_target =>
       let evaded : Bool := match Pm.get state.status pathfinding_target with
         | none => false
         | some st =>
           (use_status_effect_if_present st.effect_ids
             [Pm.keys state.phasing] state.time_limit usage_limit).2.isSome
       if evaded then state
       else
         let next_pos := match pf.type with
           | .straight_line =>
             get_straight_line_next_position state entity_id pathfinding_target
           | .path =>
             get_astar_next_position state entity_id pathfinding_target
         if is_blocked_at state next_pos false true
            || !is_in_bounds state next_pos then state
         else
           { state with position := Pm.set state.position entity_id next_pos })
  | _, _ => state

/-- Advance all pathfinding-enabled entities by one tile
(pathfinding_system).  The usage-limit snapshot is taken once and the
per-entity updates to it are discarded, exactly as in the source. -/
def pathfinding_system (state : State) : State :=
  let usage_limit := state.usage_limit
  List.foldl
    (fun s entity_id => entity_pathfinding s usage_limit entity_id)
    state (Pm.keys state.pathfinding)

/-- A world with empty component stores, used to build concrete states for
witnesses and counterexamples. -/
def empty_state (width height : Int) : State where
  width := width
  height := height
  immunity := []
  phasing := []
  speed := []
  time_limit := []
  usage_limit := []
  agent := []
  appearance := []
  blocking := []
  collectible := []
  collidable := []
  cost := []
  damage := []
  dead := []
  exit := []
  health := []
  inventory := []
  key := []
  lethal_damage := []
  locked := []
  moving := []
  pathfinding := []
  portal := []
  position := []
  pushable := []
  required := []
  rewardable := []
  status := []
  prev_position := []
  trail := []
  damage_hits := []
  turn := 0
  score := 0
  win := false
  lose := false
  message := none
  turn_limit := none
  seed := none

/-! ## Damage system (grid_universe/systems/damage.py)

The damage functions thread the health / dead / usage-limit / damage-hits
accumulators exactly as the source does.  In addition they return a ghost
log listing each (target, damager, turn) triple at the moment damage is
actually applied; the log records events only and influences nothing. -/

/-- The threaded accumulator of damage_system: the health, dead,
usage_limit and damage_hits values passed between the helpers. -/
structure DmgAcc where
  health : Pm Health
  dead : Pm Dead
  usage_limit : Pm UsageLimit
  damage_hits : List DamageHit
deriving DecidableEq, Repr

/-- Positions visited by an entity during this action: the lookup
trail_cache.get(eid, set()) against the entity-to-positions inversion of
state.trail built by _build_trail_cache (same membership semantics). -/
def entity_trail (state : State) (eid : EntityID) : List Position :=
  List.map (fun kv => kv.1)
    (List.filter (fun kv : Position × Ps => kv.2.contains eid) state.trail)

/-- Positions swap test (_is_swap). -/
def is_swap (a_prev a_curr b_prev b_curr : Position) : Bool :=
  a_prev = b_curr && a_curr = b_prev

/-- Target steps onto the damager's just-vacated origin tile with no other
interaction evidence (_pure_vacated_origin). -/
def pure_vacated_origin (target_prev target_curr damager_prev damager_curr :
    Position) (target_trail damager_trail : List Position) : Bool :=
  if target_curr ≠ damager_prev then false
  else if is_swap target_prev target_curr damager_prev damager_curr then false
  else if damager_trail.contains target_prev then false
  else if target_trail.contains damager_curr then false
  else true

/-- All entities capable of dealing damage (_candidate_damagers):
set(state.damage) | set(state.lethal_damage). -/
def candidate_damagers (state : State) : List EntityID :=
  Ps.union (Pm.keys state.damage) (Pm.keys state.lethal_damage)

/-- The damage amount of a damager: its damage component's amount when it
has one, else zero (the lethal-only case). -/
def damager_amount (state : State) (damager_id : EntityID) : Int :=
  match Pm.get state.damage damager_id with
  | some d => d.amount
  | none => 0

/-- The damage-application tail of _apply_single_damage, reached when the
hit is fresh and no avoidance effect was selected: raise on a negative
amount, otherwise apply the damage, record the hit and log the event. -/
def apply_single_damage_hit (state : State) (target_id damager_id : EntityID)
    (acc : DmgAcc) (usage_limit : Pm UsageLimit) :
    Except String (DmgAcc × List DamageHit) :=
  if damager_amount state damager_id < 0 then
    .error "Damager has negative damage"
  else
    let hd := apply_damage_and_check_death acc.health acc.dead target_id
      (damager_amount state damager_id)
      (Pm.contains state.lethal_damage damager_id)
    .ok ({ health := hd.1, dead := hd.2, usage_limit := usage_limit,
           damage_hits := acc.damage_hits ++ [(target_id, damager_id,
             state.turn)] }, [(target_id, damager_id, state.turn)])

/-- Apply damage from damager to target if not already applied this turn
(_apply_single_damage).  Raises on negative damage amounts.  The second
component of the result is the ghost event log of this call. -/
def apply_single_damage (state : State) (target_id damager_id : EntityID)
    (acc : DmgAcc) : Except String (DmgAcc × List DamageHit) :=
  if acc.damage_hits.contains (target_id, damager_id, state.turn) then
    .ok (acc, [])
  else
    match Pm.get state.status target_id with
    | none => apply_single_damage_hit state target_id damager_id acc
        acc.usage_limit
    | some st =>
      match use_status_effect_if_present st.effect_ids
        [Pm.keys state.immunity, Pm.keys state.phasing]
        state.time_limit acc.usage_limit with
      | (usage_limit, some _) =>
        .ok ({ acc with usage_limit := usage_limit }, [])
      | (usage_limit, none) =>
        apply_single_damage_hit state target_id damager_id acc usage_limit

/-- Evaluate one damager against the target inside the damager loop of
_apply_damage_for_target: decide the interaction predicates and apply
damage when they pass. -/
def damage_pair (state : State) (target_id : EntityID)
    (target_pos : Position) (target_prev : Option Position)
    (target_trail : List Position) (acc : DmgAcc) (damager_id : EntityID) :
    Except String (DmgAcc × List DamageHit) :=
  if damager_id = target_id then .ok (acc, [])
  else
    match Pm.get state.position damager_id with
    | none => .ok (acc, [])
    | some damager_pos =>
      match target_prev, Pm.get state.prev_position damager_id with
      | none, _ | _, none =>
        if target_pos = damager_pos then
          apply_single_damage state target_id damager_id acc
        else .ok (acc, [])
      | some target_prev, some damager_prev =>
        let damager_trail := entity_trail state damager_id
        let overlap := target_pos = damager_pos
        let swap := is_swap target_prev target_pos damager_prev damager_pos
        let trails_intersect :=
          List.any target_trail (fun p => damager_trail.contains p)
        if !overlap && !trails_intersect
           && pure_vacated_origin target_prev target_pos damager_prev
             damager_pos target_trail damager_trail then
          .ok (acc, [])
        else
          let endpoint_cross := target_pos = damager_prev
            && (damager_trail.contains target_prev
                || target_trail.contains damager_prev)
          if overlap || swap || trails_intersect || endpoint_cross then
            apply_single_damage state target_id damager_id acc
          else .ok (acc, [])

/-- Fold of damage_pair over the damager list (the loop body of
_apply_damage_for_target), concatenating the ghost logs. -/
def damage_pair_fold (state : State) (target_id : EntityID)
    (target_pos : Position) (target_prev : Option Position)
    (target_trail : List Position) :
    List EntityID → DmgAcc → Except String (DmgAcc × List DamageHit)
  | [], acc => .ok (acc, [])
  | damager_id :: rest, acc => do
    let (acc1, log) ← damage_pair state target_id target_pos target_prev
      target_trail acc damager_id
    let (acc2, log2) ← damage_pair_fold state target_id target_pos
      target_prev target_trail rest acc1
    .ok (acc2, log ++ log2)

/-- Evaluate all damagers against a single target
(_apply_damage_for_target). -/
def apply_damage_for_target (state : State) (target_id : EntityID)
    (acc : DmgAcc) (damager_ids : List EntityID) :
    Except String (DmgAcc × List DamageHit) :=
  match Pm.get state.position target_id with
  | none => .ok (acc, [])
  | some target_pos =>
    if Pm.contains acc.dead target_id then .ok (acc, [])
    else
      damage_pair_fold state target_id target_pos
        (Pm.get state.prev_position target_id)
        (entity_trail state target_id) damager_ids acc

/-- Fold of apply_damage_for_target over the target list (the main loop of
damage_system). -/
def damage_target_fold (state : State) (damager_ids : List EntityID) :
    List EntityID → DmgAcc → Except String (DmgAcc × List DamageHit)
  | [], acc => .ok (acc, [])
  | target_id :: rest, acc => do
    let (acc1, log) ← apply_damage_for_target state target_id acc damager_ids
    let (acc2, log2) ← damage_target_fold state damager_ids rest acc1
    .ok (acc2, log ++ log2)

/-- Resolve damage / lethal interactions for this turn (damage_system),
with the ghost event log of applied (target, damager, turn) triples. -/
def damage_system (state : State) :
    Except String (State × List DamageHit) := do
  let (acc, log) ← damage_target_fold state (candidate_damagers state)
    (Pm.keys state.health)
    ⟨state.health, state.dead, state.usage_limit, state.damage_hits⟩
  .ok ({ state with
          health := acc.health
          dead := acc.dead
          usage_limit := acc.usage_limit
          damage_hits := acc.damage_hits }, log)

/-! ## Garbage collection (grid_universe/utils/gc.py) -/

/-- All reachable entity ids (compute_alive_entities): the position keys
together with every id referenced by any status effect set or any
inventory item set. -/
def compute_alive_entities (state : State) : List EntityID :=
  Pm.keys state.position
    ++ List.foldl (fun acc (kv : EntityID × Status) => acc ++ kv.2.effect_ids)
      [] state.status
    ++ List.foldl (fun acc (kv : EntityID × Inventory) => acc ++ kv.2.item_ids)
      [] state.inventory

/-- Remove unreachable entities (run_garbage_collector).  The source
filters every PMap-typed dataclass field by key membership in the alive
set; the trail store is keyed by positions, which never compare equal to
integer ids, so the filter empties it. -/
def run_garbage_collector (state : State) : State :=
  let alive := compute_alive_entities state
  { state with
    immunity := Pm.filterKeys state.immunity alive
    phasing := Pm.filterKeys state.phasing alive
    speed := Pm.filterKeys state.speed alive
    time_limit := Pm.filterKeys state.time_limit alive
    usage_limit := Pm.filterKeys state.usage_limit alive
    agent := Pm.filterKeys state.agent alive
    appearance := Pm.filterKeys state.appearance alive
    blocking := Pm.filterKeys state.blocking alive
    collectible := Pm.filterKeys state.collectible alive
    collidable := Pm.filterKeys state.collidable alive
    cost := Pm.filterKeys state.cost alive
    damage := Pm.filterKeys state.damage alive
    dead := Pm.filterKeys state.dead alive
    exit := Pm.filterKeys state.exit alive
    health := Pm.filterKeys state.health alive
    inventory := Pm.filterKeys state.inventory alive
    key := Pm.filterKeys state.key alive
    lethal_damage := Pm.filterKeys state.lethal_damage alive
    locked := Pm.filterKeys state.locked alive
    moving := Pm.filterKeys state.moving alive
    pathfinding := Pm.filterKeys state.pathfinding alive
    portal := Pm.filterKeys state.portal alive
    position := Pm.filterKeys state.position alive
    pushable := Pm.filterKeys state.pushable alive
    required := Pm.filterKeys state.required alive
    rewardable := Pm.filterKeys state.rewardable alive
    status := Pm.filterKeys state.status alive
    prev_position := Pm.filterKeys state.prev_position alive
    trail := [] }

/-! ## Pipeline systems absent from src (modelled from the spec)

step.py imports movement_system, moving_system, position_system,
collectible_system and unlock_system from modules that are not under src/;
they are modelled from the specification (sections 2, 4.1 and 8).  None of
them touches the turn counter, the damage-hit set, the trail, health, or
the terminal flags. -/

/-- Key deletion helper for the modelled systems (PMap.remove). -/
def Pm.removeKey {α : Type} (m : Pm α) (i : EntityID) : Pm α :=
  List.filter (fun kv => kv.1 ≠ i) m

/-- Modelled from the spec: grid_universe.systems.position.position_system
is imported by step.py but its file is not under src/.  Section 4.1 step 2
describes it as re-snapshotting previous positions
(prev_position := position). -/
def position_system (state : State) : State :=
  { state with prev_position := state.position }

/-- One autonomous movement step of a single moving entity, helper of the
modelled moving_system. -/
def moving_entity_step (state : State) (eid : EntityID) (m : Moving) :
    State × Moving × Bool :=
  match Pm.get state.position eid with
  | none => (state, m, true)
  | some pos =>
    let delta : Int × Int := match m.axis with
      | .horizontal => (m.direction, 0)
      | .vertical => (0, m.direction)
    let next : Position := ⟨pos.x + delta.1, pos.y + delta.2⟩
    if is_in_bounds state next && !is_blocked_at state next false true then
      ({ state with position := Pm.set state.position eid next }, m, false)
    else if m.bounce then
      (state, { m with direction := -m.direction }, true)
    else (state, m, true)

/-- The per-tick step loop of the modelled moving_system: up to n single
steps, stopping once the entity is blocked. -/
def moving_steps (eid : EntityID) : Nat → State × Moving × Bool →
    State × Moving × Bool
  | 0, acc => acc
  | n + 1, acc =>
    if acc.2.2 then acc
    else moving_steps eid n (moving_entity_step acc.1 eid acc.2.1)

/-- Modelled from the spec: grid_universe.systems.moving.moving_system is
imported by step.py but its file is not under src/.  Sections 2 and 4.1
describe it as stepping every entity with a configured moving behaviour
once per turn; the Moving component documents axis, direction (plus or
minus one),
bounce (reverse on obstacle, else stop) and speed (steps per tick). -/
def moving_system (state : State) : State :=
  List.foldl
    (fun s (kv : EntityID × Moving) =>
      let stepped := moving_steps kv.1 kv.2.speed.toNat (s, kv.2, false)
      { stepped.1 with moving := Pm.set stepped.1.moving kv.1 stepped.2.1 })
    state state.moving

/-- Modelled from the spec: grid_universe.systems.movement.movement_system
is imported by step.py but its file is not under src/.  Section 4.1
describes the movement sub-step as the actual position update, blocked if
unsuccessful: the agent occupies the candidate cell when it is in bounds
and not blocked, and otherwise stays. -/
def movement_system (state : State) (eid : EntityID) (next_pos : Position) :
    State :=
  match Pm.get state.position eid with
  | none => state
  | some _ =>
    if is_in_bounds state next_pos
       && !is_blocked_at state next_pos true true then
      { state with position := Pm.set state.position eid next_pos }
    else state

/-- Modelled from the spec: grid_universe.systems.collectible
.collectible_system is imported by step.py but its file is not under src/.
Sections 2 and 4.1 describe it as moving collectible entities at the
agent's tile into the agent's inventory (rewardable collectibles award
their amount; a missing inventory component degrades to a no-op). -/
def collectible_system (state : State) (eid : EntityID) : State :=
  match Pm.get state.position eid, Pm.get state.inventory eid with
  | some pos, some inv =>
    let collected :=
      entities_with_components_at state pos (Pm.keys state.collectible)
    let collected := List.filter (fun i => i ≠ eid) collected
    let position := List.foldl
      (fun pm i => Pm.removeKey pm i) state.position collected
    let item_ids := List.foldl
      (fun s i => Ps.add s i) inv.item_ids collected
    let reward := List.foldl
      (fun acc i => acc + (match Pm.get state.rewardable i with
        | some r => r.amount
        | none => 0))
      (0 : Int) collected
    { state with
        position := position
        inventory := Pm.set state.inventory eid ⟨item_ids⟩
        score := state.score + reward }
  | _, _ => state

/-- Modelled from the spec: grid_universe.systems.locked.unlock_system is
imported by step.py but its file is not under src/.  Sections 2 and 8
describe it: for a locked entity at the agent's position or an adjacent
cell, a key held in the agent's inventory with a matching key id unlocks
it — the door loses its locked and blocking components and the key leaves
the inventory. -/
def unlock_system (state : State) (eid : EntityID) : State :=
  match Pm.get state.position eid, Pm.get state.inventory eid with
  | some pos, some _ =>
    let cells : List Position :=
      [pos, ⟨pos.x, pos.y - 1⟩, ⟨pos.x, pos.y + 1⟩,
        ⟨pos.x - 1, pos.y⟩, ⟨pos.x + 1, pos.y⟩]
    let locked_ids := List.filter
      (fun kv : EntityID × Locked =>
        match Pm.get state.position kv.1 with
        | some p => cells.contains p
        | none => false)
      state.locked
    List.foldl
      (fun s (kv : EntityID × Locked) =>
        match Pm.get s.inventory eid with
        | none => s
        | some inv =>
          let matching := List.find? (fun item =>
            match Pm.get s.key item with
            | some k => k.key_id = kv.2.key_id
            | none => false) inv.item_ids
          match matching with
          | none => s
          | some key_item =>
            { s with
                locked := Pm.removeKey s.locked kv.1
                blocking := Pm.removeKey s.blocking kv.1
                inventory := Pm.set s.inventory eid
                  ⟨Ps.remove inv.item_ids key_item⟩ })
      state locked_ids
  | _, _ => state

/-! ## Step orchestrator (grid_universe/step.py)

step returns the new state together with the concatenated ghost damage
log of every damage_system invocation inside the call. -/

/-- One movement sub-step (_substep): push resolution then the actual
position update. -/
def substep (move_fn : MoveFnSpec) (state : State) (agent_id : EntityID)
    (next_pos : Position) : State :=
  movement_system (push_system move_fn state agent_id next_pos)
    agent_id next_pos

/-- Post-substep finalization (_after_substep): trail recording, portal
resolution, damage resolution, tile reward, position snapshot, terminal
checks.  The source indexes state.position[agent_id], which raises when
absent. -/
def after_substep (objective_fn : ObjectiveFn) (state : State)
    (agent_id : EntityID) : Except String (State × List DamageHit) :=
  match Pm.get state.position agent_id with
  | none => .error "KeyError: agent position"
  | some pos => do
    let (state2, log) ←
      damage_system (portal_system (add_trail_position state agent_id pos))
    let state3 := tile_reward_system state2 agent_id
    let state4 := position_system state3
    let state5 := win_system objective_fn state4 agent_id
    let state6 := lose_system state5 agent_id
    .ok (state6, log)

/-- End-of-turn finalization (_after_step): tile cost, turn advancement,
status-effect garbage collection, reachability garbage collection. -/
def after_step (state : State) (agent_id : EntityID) : State :=
  run_garbage_collector
    (status_gc_system (turn_system (tile_cost_system state agent_id)))

/-- The inner candidate-position loop of _step_move: each candidate gets a
sub-step plus finalization; a sub-step that changes nothing stops movement
(the boolean result). -/
def move_substeps (move_fn : MoveFnSpec) (objective_fn : ObjectiveFn)
    (agent_id : EntityID) :
    List Position → State → Except String (State × List DamageHit × Bool)
  | [], state => .ok (state, [], false)
  | next_pos :: rest, state => do
    let prev_state := state
    let (state2, log) ← after_substep objective_fn
      (substep move_fn state agent_id next_pos) agent_id
    if prev_state = state2 then .ok (state2, log, true)
    else do
      let (state3, log2, stopped) ←
        move_substeps move_fn objective_fn agent_id rest state2
      .ok (state3, log ++ log2, stopped)

/-- The outer multiplier loop of _step_move, one iteration per speed
repetition; the fallback candidate is the agent position captured before
the loop. -/
def move_rounds (move_fn : MoveFnSpec) (objective_fn : ObjectiveFn)
    (action : Action) (agent_id : EntityID) (current_pos : Position) :
    Nat → State → Except String (State × List DamageHit)
  | 0, state => .ok (state, [])
  | n + 1, state => do
    let positions := move_fn.fn state agent_id action
    let positions := if positions.isEmpty then [current_pos] else positions
    let (state2, log, stopped) ←
      move_substeps move_fn objective_fn agent_id positions state
    if stopped then .ok (state2, log)
    else do
      let (state3, log2) ← move_rounds move_fn objective_fn action agent_id
        current_pos n state2
      .ok (state3, log ++ log2)

/-- Apply a movement action (_step_move): resolve the speed-based move
multiplier, consuming one use of a selected speed effect, then run the
movement sub-steps. -/
def step_move (move_fn : MoveFnSpec) (objective_fn : ObjectiveFn)
    (state : State) (action : Action) (agent_id : EntityID) :
    Except String (State × List DamageHit) :=
  match Pm.get state.position agent_id with
  | none => .ok (state, [])
  | some current_pos =>
    let selected : State × Int :=
      match Pm.get state.status agent_id with
      | none => (state, 1)
      | some st =>
        match use_status_effect_if_present st.effect_ids
          [Pm.keys state.speed] state.time_limit state.usage_limit with
        | (_, none) => (state, 1)
        | (usage_limit, some effect_id) =>
          ({ state with usage_limit := usage_limit },
            match Pm.get state.speed effect_id with
            | some spd => spd.multiplier
            | none => 1)
    move_rounds move_fn objective_fn action agent_id current_pos
      selected.2.toNat selected.1

/-- The main pipeline of step once the early exits have been passed:
reset damage_hits and trail, run the pre-action systems, dispatch on the
action, run the shared finalization for non-movement actions, then the
end-of-turn finalization. -/
def step_pipeline (move_fn : MoveFnSpec) (objective_fn : ObjectiveFn)
    (state : State) (action : Action) (agent_id : EntityID) :
    Except String (State × List DamageHit) :=
  let state := { state with damage_hits := [], trail := [] }
  let state := position_system state
  let state := moving_system state
  let state := pathfinding_system state
  let state := status_tick_system state
  let dispatched : Except String (State × List DamageHit) :=
    match action with
    | .up | .down | .left | .right =>
      step_move move_fn objective_fn state action agent_id
    | .use_key => .ok (unlock_system state agent_id, [])
    | .pick_up => .ok (collectible_system state agent_id, [])
    | .wait => .ok (state, [])
  do
  let (state2, log) ← dispatched
  if !MOVE_ACTIONS.contains action then do
    let (state3, log2) ← after_substep objective_fn state2 agent_id
    .ok (after_step state3 agent_id, log ++ log2)
  else .ok (after_step state2 agent_id, log)

/-- The body of step once the acting entity id is resolved: the two early
exits (dead agent; invalid or terminal state) and the pipeline. -/
def step_resolved (move_fn : MoveFnSpec) (objective_fn : ObjectiveFn)
    (state : State) (action : Action) (agent_id : EntityID) :
    Except String (State × List DamageHit) :=
  if Pm.contains state.dead agent_id then
    .ok ({ state with lose := true }, [])
  else if !is_valid_state state agent_id
      || is_terminal_state state agent_id then .ok (state, [])
  else step_pipeline move_fn objective_fn state action agent_id

/-- Apply an action to the current state (step).  When no agent id is
given the first agent in the state acts; with no agent at all the source
raises ValueError. -/
def step (move_fn : MoveFnSpec) (objective_fn : ObjectiveFn)
    (state : State) (action : Action) (agent_id : Option EntityID) :
    Except String (State × List DamageHit) :=
  match agent_id with
  | some i => step_resolved move_fn objective_fn state action i
  | none =>
    match Pm.keys state.agent with
    | [] => .error "State contains no agent"
    | i :: _ => step_resolved move_fn objective_fn state action i

/-! ## Spec-side reachability

The GC-reachability claim defines reachable entities as the transitive
closure, rooted at positioned entities, of the position / inventory /
status ownership edges.  This is the claim's property, stated from the
specification's words (explicitly not the implementation's one-pass
approximation in compute_alive_entities). -/

/-- One closure expansion: add every effect id and item id referenced by
the status or inventory of an already-reached entity. -/
def reachable_step (state : State) (cur : List EntityID) : List EntityID :=
  let viaStatus := List.foldl
    (fun acc (kv : EntityID × Status) =>
      if cur.contains kv.1 then acc ++ kv.2.effect_ids else acc)
    [] state.status
  let viaInventory := List.foldl
    (fun acc (kv : EntityID × Inventory) =>
      if cur.contains kv.1 then acc ++ kv.2.item_ids else acc)
    [] state.inventory
  cur ++ viaStatus ++ viaInventory

/-- Iterated closure expansion from the positioned entities. -/
def iterate_reachable (state : State) : Nat → List EntityID
  | 0 => Pm.keys state.position
  | n + 1 => reachable_step state (iterate_reachable state n)

/-- Spec-side reachability: the entity lies in the transitive closure of
the ownership edges rooted at positioned entities (the number of status
and inventory components bounds the closure depth). -/
def spec_reachable (state : State) (e : EntityID) : Bool :=
  (iterate_reachable state
    (state.status.length + state.inventory.length + 1)).contains e

/-! ## Specification-side predicates

LogStep h1 h2 l links a ghost damage log l to the damage-hit set before
(h1) and after (h2) a piece of the pipeline: the hit set only grows, the
log has no duplicates, and every logged event is fresh (absent before,
recorded after).  HopExplained states that an entity's position in a
(possibly updated) position map is explained by one single portal hop from
the original state. -/

def LogStep (h1 h2 : List DamageHit) (l : List DamageHit) : Prop :=
  (∀ ev ∈ h1, ev ∈ h2) ∧ List.Nodup l ∧ (∀ ev ∈ l, ev ∈ h2 ∧ ev ∉ h1)

def HopExplained (s : State) (e : EntityID) (pm : Pm Position) : Prop :=
  ∃ pid portal pp qq, pid ∈ Pm.keys s.portal ∧
    Pm.get s.portal pid = some portal ∧
    Pm.get s.position pid = some pp ∧
    Pm.get s.position portal.pair_entity = some qq ∧
    Pm.get s.position e = some pp ∧
    Pm.get s.prev_position e ≠ some pp ∧
    Pm.get pm e = some qq

/-! ## Concrete instances for witnesses and counterexamples -/

/-- A movement strategy that never proposes a candidate (so movement falls
back to staying in place); not the wrap-around strategy. -/
def mv0 : MoveFnSpec := ⟨false, fun _ _ _ => []⟩

/-- An objective function that never holds. -/
def obj0 : ObjectiveFn := fun _ _ => false

/-- C5 input: seeker 3 pathfinds toward agent 1; the target holds a
usage-limited (amount 1) phasing effect 5. -/
def pathfinding_bug_state : State :=
  { empty_state 6 6 with
      agent := [(1, ⟨⟩)]
      position := [(1, ⟨0, 0⟩), (3, ⟨3, 0⟩)]
      prev_position := [(1, ⟨0, 0⟩), (3, ⟨3, 0⟩)]
      pathfinding := [(3, ⟨some 1, .straight_line⟩)]
      status := [(1, ⟨[5]⟩)]
      phasing := [(5, ⟨⟩)]
      usage_limit := [(5, ⟨1⟩)] }

/-- C4 input: agent 1 is positioned; entity 7 is unreachable (no position,
referenced by nobody) yet its status references effect 8, which sits in
the immunity store. -/
def gc_bug_state : State :=
  { empty_state 6 6 with
      agent := [(1, ⟨⟩)]
      position := [(1, ⟨0, 0⟩)]
      prev_position := [(1, ⟨0, 0⟩)]
      status := [(7, ⟨[8]⟩)]
      immunity := [(8, ⟨⟩)] }

/-- C3 counterexample input: portal 1 at (0,0) pairs to entity 2 at (1,0);
portal 3 at (1,0) pairs to entity 4 at (2,0).  Collidable entity 10 moved
onto portal 1 this turn and its recorded trail already contains (1,0). -/
def portal_chain_state : State :=
  { empty_state 10 10 with
      portal := [(1, ⟨2⟩), (3, ⟨4⟩)]
      position := [(1, ⟨0, 0⟩), (2, ⟨1, 0⟩), (3, ⟨1, 0⟩), (4, ⟨2, 0⟩),
        (10, ⟨0, 0⟩)]
      collidable := [(10, ⟨⟩)]
      trail := [(⟨1, 0⟩, [10])]
      prev_position := [(10, ⟨5, 5⟩)] }

/-- Witness input: a dead agent on a small board. -/
def dead_agent_state : State :=
  { empty_state 2 2 with
      agent := [(1, ⟨⟩)]
      position := [(1, ⟨0, 0⟩)]
      dead := [(1, ⟨⟩)] }

/-- Witness input: an already-won small board. -/
def won_state : State :=
  { empty_state 2 2 with
      agent := [(1, ⟨⟩)]
      position := [(1, ⟨0, 0⟩)]
      win := true }

/-- Witness input: an agent about to push a box with a free destination. -/
def push_state : State :=
  { empty_state 3 1 with
      agent := [(1, ⟨⟩)]
      position := [(1, ⟨0, 0⟩), (2, ⟨1, 0⟩)]
      pushable := [(2, ⟨⟩)] }

/-- Witness input: a damager overlapping a healthy agent. -/
def overlap_state : State :=
  { empty_state 3 3 with
      agent := [(1, ⟨⟩)]
      position := [(1, ⟨0, 0⟩), (2, ⟨0, 0⟩)]
      prev_position := [(1, ⟨0, 0⟩), (2, ⟨0, 0⟩)]
      health := [(1, ⟨5, 5⟩)]
      damage := [(2, ⟨3⟩)] }

/-- Witness input: a damager with a negative damage amount. -/
def negative_damage_state : State :=
  { empty_state 3 3 with
      position := [(1, ⟨0, 0⟩), (2, ⟨0, 0⟩)]
      health := [(1, ⟨5, 5⟩)]
      damage := [(2, ⟨-5⟩)] }

/-- Witness input: a damager far away from the only healthy entity. -/
def apart_state : State :=
  { empty_state 3 3 with
      position := [(1, ⟨0, 0⟩), (2, ⟨2, 2⟩)]
      health := [(1, ⟨5, 5⟩)]
      damage := [(2, ⟨2⟩)] }

/-! ## General lemmas about the embedded data structures -/

theorem Pm.get_set {α : Type} (m : Pm α) (k : EntityID) (v : α)
    (i : EntityID) :
    Pm.get (Pm.set m k v) i = if k = i then some v else Pm.get m i := by
  induction m with
  | nil => by_cases h : k = i <;> simp [Pm.set, Pm.get, h]
  | cons kv rest ih =>
    obtain ⟨k0, w⟩ := kv
    by_cases h2 : k = i
    · subst h2
      by_cases h1 : k < k0
      · simp [Pm.set, Pm.get, h1]
      · by_cases h3 : k = k0
        · subst h3
          simp [Pm.set, Pm.get, h1]
        · have h4 : k0 ≠ k := fun hh => h3 hh.symm
          simp [Pm.set, Pm.get, h1, h3, h4, ih]
    · by_cases h1 : k < k0
      · simp [Pm.set, Pm.get, h1, h2]
      · by_cases h3 : k = k0
        · subst h3
          simp [Pm.set, Pm.get, h1, h2]
        · simp [Pm.set, Pm.get, h1, h2, h3, ih]

theorem Pm.get_foldl_set_const {α : Type} (l : List EntityID) (m : Pm α)
    (v : α) (q : EntityID) :
    Pm.get (List.foldl (fun pm i => Pm.set pm i v) m l) q =
      if q ∈ l then some v else Pm.get m q := by
  induction l generalizing m with
  | nil => simp
  | cons i rest ih =>
    by_cases h : q ∈ rest
    · simp [List.foldl, ih, h]
    · by_cases h2 : q = i
      · subst h2
        simp [List.foldl, ih, h, Pm.get_set]
      · simp [List.foldl, ih, h, Pm.get_set, h2]
        intro h3
        exact absurd h3.symm h2

/-! ## C7: early exits of step -/

/-- C7: for every state and action, when the acting entity is already dead
step returns the input state with lose set true and everything else
unchanged, running no pipeline system; when instead win or lose is already
set, or the acting entity has no position, step returns the input state
entirely unchanged. -/
theorem step_early_exit (move_fn : MoveFnSpec) (objective_fn : ObjectiveFn)
    (s : State) (a : Action) (aid : EntityID) :
    (Pm.contains s.dead aid = true →
      step move_fn objective_fn s a (some aid) =
        .ok ({ s with lose := true }, [])) ∧
    (Pm.contains s.dead aid = false →
      (s.win = true ∨ s.lose = true ∨ Pm.get s.position aid = none) →
      step move_fn objective_fn s a (some aid) = .ok (s, [])) := by
  constructor
  · intro hdead
    simp [step, step_resolved, hdead]
  · intro hdead hcase
    rcases hcase with hwin | hlose | hpos
    · simp [step, step_resolved, hdead, is_terminal_state, hwin]
    · simp [step, step_resolved, hdead, is_terminal_state, hlose]
    · simp [step, step_resolved, hdead, is_valid_state, hpos]

/-! ## C6: monotonicity of the terminal flags -/

/-- C6: for every state in which win or lose is true and every action, the
state returned by step keeps that flag true; the pipeline never resets win
or lose from true to false. -/
theorem step_terminal_flags_monotonic (move_fn : MoveFnSpec)
    (objective_fn : ObjectiveFn) (s : State) (a : Action)
    (aid : Option EntityID) (s2 : State) (log : List DamageHit)
    (h : step move_fn objective_fn s a aid = .ok (s2, log)) :
    (s.win = true → s2.win = true) ∧ (s.lose = true → s2.lose = true) := by
  have hres : ∀ i, step_resolved move_fn objective_fn s a i = .ok (s2, log) →
      (s.win = true → s2.win = true) ∧ (s.lose = true → s2.lose = true) := by
    intro i hr
    by_cases hdead : Pm.contains s.dead i
    · simp [step_resolved, hdead] at hr
      obtain ⟨hstate, _⟩ := hr
      subst hstate
      exact ⟨fun hw => hw, fun _ => rfl⟩
    · by_cases hwin : s.win
      · have hterm : is_terminal_state s i = true := by
          simp [is_terminal_state, hwin]
        simp [step_resolved, hdead, hterm] at hr
        obtain ⟨hstate, _⟩ := hr
        subst hstate
        exact ⟨fun hw => hw, fun hl => hl⟩
      · by_cases hlose : s.lose
        · have hterm : is_terminal_state s i = true := by
            simp [is_terminal_state, hlose]
          simp [step_resolved, hdead, hterm] at hr
          obtain ⟨hstate, _⟩ := hr
          subst hstate
          exact ⟨fun hw => hw, fun hl => hl⟩
        · exact ⟨fun hw => absurd hw (by simp [hwin]),
            fun hl => absurd hl (by simp [hlose])⟩
  match aid with
  | some i => exact hres i (by simpa [step] using h)
  | none =>
    simp only [step] at h
    match hk : Pm.keys s.agent with
    | [] => rw [hk] at h; exact absurd h (by simp)
    | i :: rest => rw [hk] at h; exact hres i h

theorem list_contains_iff_mem {α : Type} [BEq α] [LawfulBEq α]
    (l : List α) (a : α) : l.contains a = true ↔ a ∈ l :=
  List.elem_iff

/-! ## Damage bookkeeping lemmas

LogStep h1 h2 l packages the invariant linking a ghost damage log l to the
damage-hit set before (h1) and after (h2) a piece of the pipeline: the hit
set only grows, the log has no duplicates, and every logged event is fresh
(absent before, recorded after). -/

theorem LogStep.rfl (h : List DamageHit) : LogStep h h [] :=
  ⟨fun _ hm => hm, List.nodup_nil, fun _ hm => absurd hm (List.not_mem_nil _)⟩

theorem LogStep.same (h1 h2 : List DamageHit) (heq : h1 = h2) :
    LogStep h1 h2 [] := heq ▸ LogStep.rfl h1

theorem LogStep.comp {h1 h2 h3 l1 l2} (a : LogStep h1 h2 l1)
    (b : LogStep h2 h3 l2) : LogStep h1 h3 (l1 ++ l2) := by
  obtain ⟨a1, a2, a3⟩ := a
  obtain ⟨b1, b2, b3⟩ := b
  refine ⟨fun ev hm => b1 ev (a1 ev hm), ?_, ?_⟩
  · exact a2.append b2 (fun ev hm1 hm2 => (b3 ev hm2).2 ((a3 ev hm1).1))
  · intro ev hm
    rcases List.mem_append.mp hm with hm1 | hm2
    · exact ⟨b1 ev (a3 ev hm1).1, (a3 ev hm1).2⟩
    · exact ⟨(b3 ev hm2).1, fun hin => (b3 ev hm2).2 (a1 ev hin)⟩

theorem apply_damage_and_check_death_other (health : Pm Health)
    (dead : Pm Dead) (tid : EntityID) (damage : Int) (lethal : Bool)
    (q : EntityID) (hq : q ≠ tid) :
    Pm.get (apply_damage_and_check_death health dead tid damage lethal).1 q =
      Pm.get health q ∧
    Pm.get (apply_damage_and_check_death health dead tid damage lethal).2 q =
      Pm.get dead q := by
  have hne : tid ≠ q := fun hh => hq hh.symm
  unfold apply_damage_and_check_death
  cases Pm.get health tid with
  | none => exact ⟨Eq.refl _, Eq.refl _⟩
  | some h =>
    constructor
    · show Pm.get (Pm.set health tid _) q = Pm.get health q
      rw [Pm.get_set, if_neg hne]
    · show Pm.get (if _ then Pm.set dead tid ⟨⟩ else dead) q = Pm.get dead q
      split
      · rw [Pm.get_set, if_neg hne]
      · rfl

/-- Branch equation: the hit is already recorded this turn. -/
theorem apply_single_damage_eq_hit_recorded (s : State)
    (tid did : EntityID) (acc : DmgAcc)
    (hc : (tid, did, s.turn) ∈ acc.damage_hits) :
    apply_single_damage s tid did acc = .ok (acc, []) := by
  unfold apply_single_damage
  split
  · rfl
  · rename_i hcc
    exact absurd ((list_contains_iff_mem _ _).mpr hc) hcc

/-- Branch equation: fresh hit, target without a status component. -/
theorem apply_single_damage_eq_no_status (s : State)
    (tid did : EntityID) (acc : DmgAcc)
    (hc : (tid, did, s.turn) ∉ acc.damage_hits)
    (hst : Pm.get s.status tid = none) :
    apply_single_damage s tid did acc =
      apply_single_damage_hit s tid did acc acc.usage_limit := by
  unfold apply_single_damage
  split
  · rename_i hcc
    exact absurd ((list_contains_iff_mem _ _).mp hcc) hc
  · simp only [hst]

/-- Branch equation: fresh hit, an avoidance effect is selected and
consumed instead of applying damage. -/
theorem apply_single_damage_eq_avoided (s : State)
    (tid did : EntityID) (acc : DmgAcc) (st : Status)
    (ul : Pm UsageLimit) (e : EntityID)
    (hc : (tid, did, s.turn) ∉ acc.damage_hits)
    (hst : Pm.get s.status tid = some st)
    (husp : use_status_effect_if_present st.effect_ids
      [Pm.keys s.immunity, Pm.keys s.phasing]
      s.time_limit acc.usage_limit = (ul, some e)) :
    apply_single_damage s tid did acc =
      .ok ({ acc with usage_limit := ul }, []) := by
  unfold apply_single_damage
  split
  · rename_i hcc
    exact absurd ((list_contains_iff_mem _ _).mp hcc) hc
  · simp only [hst, husp]

/-- Branch equation: fresh hit, status present but no avoidance effect. -/
theorem apply_single_damage_eq_not_avoided (s : State)
    (tid did : EntityID) (acc : DmgAcc) (st : Status)
    (ul : Pm UsageLimit)
    (hc : (tid, did, s.turn) ∉ acc.damage_hits)
    (hst : Pm.get s.status tid = some st)
    (husp : use_status_effect_if_present st.effect_ids
      [Pm.keys s.immunity, Pm.keys s.phasing]
      s.time_limit acc.usage_limit = (ul, none)) :
    apply_single_damage s tid did acc =
      apply_single_damage_hit s tid did acc ul := by
  unfold apply_single_damage
  split
  · rename_i hcc
    exact absurd ((list_contains_iff_mem _ _).mp hcc) hc
  · simp only [hst, husp]

/-- The damage tail applies exactly one event: the hit key is appended and
logged, and other entities' health and dead entries are untouched. -/
theorem apply_single_damage_hit_spec (s : State) (tid did : EntityID)
    (acc : DmgAcc) (ul : Pm UsageLimit) (acc2 : DmgAcc)
    (l : List DamageHit)
    (h : apply_single_damage_hit s tid did acc ul = .ok (acc2, l)) :
    l = [(tid, did, s.turn)] ∧
    acc2.damage_hits = acc.damage_hits ++ [(tid, did, s.turn)] ∧
    ∀ q, q ≠ tid → Pm.get acc2.health q = Pm.get acc.health q ∧
      Pm.get acc2.dead q = Pm.get acc.dead q := by
  unfold apply_single_damage_hit at h
  by_cases hneg : damager_amount s did < 0
  · rw [if_pos hneg] at h
    exact absurd h (by simp)
  · rw [if_neg hneg] at h
    rw [Except.ok.injEq, Prod.mk.injEq] at h
    obtain ⟨h1, h2⟩ := h
    subst h1 h2
    exact ⟨rfl, rfl, fun q hq =>
      apply_damage_and_check_death_other acc.health acc.dead tid _ _ q hq⟩

/-- Case analysis of _apply_single_damage: either nothing is logged and
the hit set, health and dead stores are untouched, or exactly the fresh
(target, damager, turn) event is logged and recorded. -/
theorem apply_single_damage_spec (s : State) (tid did : EntityID)
    (acc acc2 : DmgAcc) (l : List DamageHit)
    (h : apply_single_damage s tid did acc = .ok (acc2, l)) :
    (l = [] ∧ acc2.damage_hits = acc.damage_hits ∧
      acc2.health = acc.health ∧ acc2.dead = acc.dead) ∨
    (l = [(tid, did, s.turn)] ∧ (tid, did, s.turn) ∉ acc.damage_hits ∧
      acc2.damage_hits = acc.damage_hits ++ [(tid, did, s.turn)] ∧
      ∀ q, q ≠ tid → Pm.get acc2.health q = Pm.get acc.health q ∧
        Pm.get acc2.dead q = Pm.get acc.dead q) := by
  by_cases hc : (tid, did, s.turn) ∈ acc.damage_hits
  · rw [apply_single_damage_eq_hit_recorded s tid did acc hc] at h
    rw [Except.ok.injEq, Prod.mk.injEq] at h
    obtain ⟨h1, h2⟩ := h
    subst h1 h2
    exact Or.inl ⟨rfl, rfl, rfl, rfl⟩
  · cases hst : Pm.get s.status tid with
    | none =>
      rw [apply_single_damage_eq_no_status s tid did acc hc hst] at h
      have := apply_single_damage_hit_spec s tid did acc acc.usage_limit
        acc2 l h
      exact Or.inr ⟨this.1, hc, this.2.1, this.2.2⟩
    | some st =>
      rcases husp : use_status_effect_if_present st.effect_ids
        [Pm.keys s.immunity, Pm.keys s.phasing]
        s.time_limit acc.usage_limit with ⟨ul, oe⟩
      cases oe with
      | some e =>
        rw [apply_single_damage_eq_avoided s tid did acc st ul e hc hst husp]
          at h
        rw [Except.ok.injEq, Prod.mk.injEq] at h
        obtain ⟨h1, h2⟩ := h
        subst h1 h2
        exact Or.inl ⟨rfl, rfl, rfl, rfl⟩
      | none =>
        rw [apply_single_damage_eq_not_avoided s tid did acc st ul hc hst
          husp] at h
        have := apply_single_damage_hit_spec s tid did acc ul acc2 l h
        exact Or.inr ⟨this.1, hc, this.2.1, this.2.2⟩

/-- _apply_single_damage never raises when every damage amount in the
state is non-negative. -/
theorem apply_single_damage_total (s : State) (tid did : EntityID)
    (acc : DmgAcc)
    (hpos : ∀ d, Pm.get s.damage did = some d → 0 ≤ d.amount) :
    ∃ r, apply_single_damage s tid did acc = .ok r := by
  have hhit : ∀ ul, ∃ r, apply_single_damage_hit s tid did acc ul = .ok r := by
    intro ul
    have hnneg : ¬ (damager_amount s did < 0) := by
      unfold damager_amount
      cases hg : Pm.get s.damage did with
      | none => simp
      | some d => simpa using hpos d hg
    unfold apply_single_damage_hit
    rw [if_neg hnneg]
    exact ⟨_, Eq.refl _⟩
  by_cases hc : (tid, did, s.turn) ∈ acc.damage_hits
  · rw [apply_single_damage_eq_hit_recorded s tid did acc hc]
    exact ⟨_, Eq.refl _⟩
  · cases hst : Pm.get s.status tid with
    | none =>
      rw [apply_single_damage_eq_no_status s tid did acc hc hst]
      exact hhit acc.usage_limit
    | some st =>
      rcases husp : use_status_effect_if_present st.effect_ids
        [Pm.keys s.immunity, Pm.keys s.phasing]
        s.time_limit acc.usage_limit with ⟨ul, oe⟩
      cases oe with
      | some e =>
        rw [apply_single_damage_eq_avoided s tid did acc st ul e hc hst husp]
        exact ⟨_, Eq.refl _⟩
      | none =>
        rw [apply_single_damage_eq_not_avoided s tid did acc st ul hc hst
          husp]
        exact hhit ul

/-- Shape of a trivial (no-interaction) damage result. -/
theorem dmg_triv_spec (s : State) (tid did : EntityID) (acc : DmgAcc) :
    LogStep acc.damage_hits acc.damage_hits [] ∧
    (∀ ev ∈ ([] : List DamageHit), ev = (tid, did, s.turn) ∧ did ≠ tid) ∧
    (∀ q, q ≠ tid → Pm.get acc.health q = Pm.get acc.health q ∧
      Pm.get acc.dead q = Pm.get acc.dead q) :=
  ⟨LogStep.rfl _, by simp, fun _ _ => ⟨rfl, rfl⟩⟩

/-- LogStep and shape facts for one _apply_single_damage call. -/
theorem apply_single_damage_logstep (s : State) (tid did : EntityID)
    (acc acc2 : DmgAcc) (l : List DamageHit)
    (h : apply_single_damage s tid did acc = .ok (acc2, l)) :
    LogStep acc.damage_hits acc2.damage_hits l ∧
    (∀ ev ∈ l, ev = (tid, did, s.turn)) ∧
    (∀ q, q ≠ tid → Pm.get acc2.health q = Pm.get acc.health q ∧
      Pm.get acc2.dead q = Pm.get acc.dead q) := by
  rcases apply_single_damage_spec s tid did acc acc2 l h with
    ⟨hl, hh, hhealth, hdead⟩ | ⟨hl, hfresh, hh, hother⟩
  · subst hl
    rw [hh]
    refine ⟨LogStep.rfl _, by simp, fun q _ => ?_⟩
    rw [hhealth, hdead]
    exact ⟨rfl, rfl⟩
  · subst hl
    rw [hh]
    refine ⟨⟨fun ev hm => List.mem_append_left _ hm, List.nodup_singleton _,
      fun ev hm => ?_⟩, by simp, hother⟩
    rw [List.mem_singleton] at hm
    subst hm
    exact ⟨List.mem_append_right _ (List.mem_singleton.mpr rfl), hfresh⟩

/-- LogStep, event shape and cross-target frame facts for one damager
evaluation (the body of the damager loop). -/
theorem damage_pair_spec (s : State) (tid : EntityID) (tpos : Position)
    (tprev : Option Position) (ttrail : List Position) (acc acc2 : DmgAcc)
    (did : EntityID) (l : List DamageHit)
    (h : damage_pair s tid tpos tprev ttrail acc did = .ok (acc2, l)) :
    LogStep acc.damage_hits acc2.damage_hits l ∧
    (∀ ev ∈ l, ev = (tid, did, s.turn) ∧ did ≠ tid) ∧
    (∀ q, q ≠ tid → Pm.get acc2.health q = Pm.get acc.health q ∧
      Pm.get acc2.dead q = Pm.get acc.dead q) := by
  have hok : ∀ (hne : did ≠ tid),
      apply_single_damage s tid did acc = .ok (acc2, l) →
      LogStep acc.damage_hits acc2.damage_hits l ∧
      (∀ ev ∈ l, ev = (tid, did, s.turn) ∧ did ≠ tid) ∧
      (∀ q, q ≠ tid → Pm.get acc2.health q = Pm.get acc.health q ∧
        Pm.get acc2.dead q = Pm.get acc.dead q) := by
    intro hne happ
    obtain ⟨hls, hshape, hother⟩ :=
      apply_single_damage_logstep s tid did acc acc2 l happ
    exact ⟨hls, fun ev hm => ⟨hshape ev hm, hne⟩, hother⟩
  have htriv : (Except.ok (acc, []) :
      Except String (DmgAcc × List DamageHit)) = .ok (acc2, l) →
      LogStep acc.damage_hits acc2.damage_hits l ∧
      (∀ ev ∈ l, ev = (tid, did, s.turn) ∧ did ≠ tid) ∧
      (∀ q, q ≠ tid → Pm.get acc2.health q = Pm.get acc.health q ∧
        Pm.get acc2.dead q = Pm.get acc.dead q) := by
    intro heq
    rw [Except.ok.injEq, Prod.mk.injEq] at heq
    obtain ⟨h1, h2⟩ := heq
    subst h1 h2
    exact dmg_triv_spec s tid did acc
  unfold damage_pair at h
  split at h
  · exact htriv h
  · rename_i hne
    split at h
    · exact htriv h
    · split at h
      · split at h
        · exact hok hne h
        · exact htriv h
      · split at h
        · exact hok hne h
        · exact htriv h
      · dsimp only at h
        split at h
        · exact htriv h
        · split at h
          · exact hok hne h
          · exact htriv h

/-- LogStep, event shape and frame facts for the damager fold of one
target. -/
theorem damage_pair_fold_spec (s : State) (tid : EntityID) (tpos : Position)
    (tprev : Option Position) (ttrail : List Position) :
    ∀ (damagers : List EntityID) (acc acc2 : DmgAcc) (l : List DamageHit),
    damage_pair_fold s tid tpos tprev ttrail damagers acc = .ok (acc2, l) →
    LogStep acc.damage_hits acc2.damage_hits l ∧
    (∀ ev ∈ l, ∃ did, ev = (tid, did, s.turn) ∧ did ≠ tid) ∧
    (∀ q, q ≠ tid → Pm.get acc2.health q = Pm.get acc.health q ∧
      Pm.get acc2.dead q = Pm.get acc.dead q) := by
  intro damagers
  induction damagers with
  | nil =>
    intro acc acc2 l h
    unfold damage_pair_fold at h
    rw [Except.ok.injEq, Prod.mk.injEq] at h
    obtain ⟨h1, h2⟩ := h
    subst h1 h2
    exact ⟨LogStep.rfl _, by simp, fun _ _ => ⟨rfl, rfl⟩⟩
  | cons did rest ih =>
    intro acc acc2 l h
    unfold damage_pair_fold at h
    cases hdp : damage_pair s tid tpos tprev ttrail acc did with
    | error e =>
      rw [hdp] at h
      simp only [bind, Except.bind] at h
      exact absurd h (by simp)
    | ok p =>
      obtain ⟨acc1, l1⟩ := p
      rw [hdp] at h
      simp only [bind, Except.bind] at h
      cases hdf : damage_pair_fold s tid tpos tprev ttrail rest acc1 with
      | error e => rw [hdf] at h; exact absurd h (by simp)
      | ok p2 =>
        obtain ⟨acc3, l2⟩ := p2
        rw [hdf] at h
        rw [Except.ok.injEq, Prod.mk.injEq] at h
        obtain ⟨h1, h2⟩ := h
        subst h1 h2
        obtain ⟨hls1, hshape1, hother1⟩ :=
          damage_pair_spec s tid tpos tprev ttrail acc acc1 did l1 hdp
        obtain ⟨hls2, hshape2, hother2⟩ := ih acc1 acc3 l2 hdf
        refine ⟨hls1.comp hls2, ?_, ?_⟩
        · intro ev hm
          rcases List.mem_append.mp hm with hm1 | hm2
          · exact ⟨did, hshape1 ev hm1⟩
          · exact hshape2 ev hm2
        · intro q hq
          rw [(hother2 q hq).1, (hother2 q hq).2, (hother1 q hq).1,
            (hother1 q hq).2]
          exact ⟨rfl, rfl⟩

/-- LogStep, event shape and frame facts for one target evaluation. -/
theorem apply_damage_for_target_spec (s : State) (tid : EntityID)
    (acc acc2 : DmgAcc) (damager_ids : List EntityID) (l : List DamageHit)
    (h : apply_damage_for_target s tid acc damager_ids = .ok (acc2, l)) :
    LogStep acc.damage_hits acc2.damage_hits l ∧
    (∀ ev ∈ l, ∃ did, ev = (tid, did, s.turn) ∧ did ≠ tid) ∧
    (∀ q, q ≠ tid → Pm.get acc2.health q = Pm.get acc.health q ∧
      Pm.get acc2.dead q = Pm.get acc.dead q) := by
  have htriv : (Except.ok (acc, []) :
      Except String (DmgAcc × List DamageHit)) = .ok (acc2, l) →
      LogStep acc.damage_hits acc2.damage_hits l ∧
      (∀ ev ∈ l, ∃ did, ev = (tid, did, s.turn) ∧ did ≠ tid) ∧
      (∀ q, q ≠ tid → Pm.get acc2.health q = Pm.get acc.health q ∧
        Pm.get acc2.dead q = Pm.get acc.dead q) := by
    intro heq
    rw [Except.ok.injEq, Prod.mk.injEq] at heq
    obtain ⟨h1, h2⟩ := heq
    subst h1 h2
    exact ⟨LogStep.rfl _, by simp, fun _ _ => ⟨rfl, rfl⟩⟩
  unfold apply_damage_for_target at h
  split at h
  · exact htriv h
  · split at h
    · exact htriv h
    · exact damage_pair_fold_spec s tid _ _ _ damager_ids acc acc2 l h

/-- LogStep, event shape and frame facts for the target fold of
damage_system. -/
theorem damage_target_fold_spec (s : State) (damager_ids : List EntityID) :
    ∀ (targets : List EntityID) (acc acc2 : DmgAcc) (l : List DamageHit),
    damage_target_fold s damager_ids targets acc = .ok (acc2, l) →
    LogStep acc.damage_hits acc2.damage_hits l ∧
    (∀ ev ∈ l, ∃ tid did, ev = (tid, did, s.turn) ∧ did ≠ tid) := by
  intro targets
  induction targets with
  | nil =>
    intro acc acc2 l h
    unfold damage_target_fold at h
    rw [Except.ok.injEq, Prod.mk.injEq] at h
    obtain ⟨h1, h2⟩ := h
    subst h1 h2
    exact ⟨LogStep.rfl _, by simp⟩
  | cons tid rest ih =>
    intro acc acc2 l h
    unfold damage_target_fold at h
    cases hdp : apply_damage_for_target s tid acc damager_ids with
    | error e =>
      rw [hdp] at h
      simp only [bind, Except.bind] at h
      exact absurd h (by simp)
    | ok p =>
      obtain ⟨acc1, l1⟩ := p
      rw [hdp] at h
      simp only [bind, Except.bind] at h
      cases hdf : damage_target_fold s damager_ids rest acc1 with
      | error e => rw [hdf] at h; exact absurd h (by simp)
      | ok p2 =>
        obtain ⟨acc3, l2⟩ := p2
        rw [hdf] at h
        rw [Except.ok.injEq, Prod.mk.injEq] at h
        obtain ⟨h1, h2⟩ := h
        subst h1 h2
        obtain ⟨hls1, hshape1, _⟩ :=
          apply_damage_for_target_spec s tid acc acc1 damager_ids l1 hdp
        obtain ⟨hls2, hshape2⟩ := ih acc1 acc3 l2 hdf
        refine ⟨hls1.comp hls2, ?_⟩
        intro ev hm
        rcases List.mem_append.mp hm with hm1 | hm2
        · obtain ⟨did, hev, hne⟩ := hshape1 ev hm1
          exact ⟨tid, did, hev, hne⟩
        · exact hshape2 ev hm2

/-- LogStep and event shape facts for a whole damage_system call, plus
preservation of the state fields the step invariants need. -/
theorem damage_system_spec (s s2 : State) (l : List DamageHit)
    (h : damage_system s = .ok (s2, l)) :
    LogStep s.damage_hits s2.damage_hits l ∧
    (∀ ev ∈ l, ∃ tid did, ev = (tid, did, s.turn) ∧ did ≠ tid) ∧
    s2.turn = s.turn := by
  unfold damage_system at h
  cases hdf : damage_target_fold s (candidate_damagers s)
      (Pm.keys s.health)
      ⟨s.health, s.dead, s.usage_limit, s.damage_hits⟩ with
  | error e =>
    rw [hdf] at h
    simp only [bind, Except.bind] at h
    exact absurd h (by simp)
  | ok p =>
    obtain ⟨acc, l1⟩ := p
    rw [hdf] at h
    simp only [bind, Except.bind] at h
    rw [Except.ok.injEq, Prod.mk.injEq] at h
    obtain ⟨h1, h2⟩ := h
    subst h1 h2
    obtain ⟨hls, hshape⟩ := damage_target_fold_spec s (candidate_damagers s)
      (Pm.keys s.health) _ acc l1 hdf
    exact ⟨hls, hshape, rfl⟩

/-- damage_system never raises when every damage amount is non-negative
(totality half of the negative-damage contract). -/
theorem damage_system_total (s : State)
    (hpos : ∀ did d, Pm.get s.damage did = some d → 0 ≤ d.amount) :
    ∃ r, damage_system s = .ok r := by
  have hpair : ∀ tid tpos tprev ttrail acc did,
      ∃ r, damage_pair s tid tpos tprev ttrail acc did = .ok r := by
    intro tid tpos tprev ttrail acc did
    unfold damage_pair
    split
    · exact ⟨_, Eq.refl _⟩
    · split
      · exact ⟨_, Eq.refl _⟩
      · split
        · split
          · exact apply_single_damage_total s tid did acc (hpos did)
          · exact ⟨_, Eq.refl _⟩
        · split
          · exact apply_single_damage_total s tid did acc (hpos did)
          · exact ⟨_, Eq.refl _⟩
        · dsimp only
          split
          · exact ⟨_, Eq.refl _⟩
          · split
            · exact apply_single_damage_total s tid did acc (hpos did)
            · exact ⟨_, Eq.refl _⟩
  have hfold : ∀ tid tpos tprev ttrail damagers acc,
      ∃ r, damage_pair_fold s tid tpos tprev ttrail damagers acc = .ok r := by
    intro tid tpos tprev ttrail damagers
    induction damagers with
    | nil => intro acc; exact ⟨_, Eq.refl _⟩
    | cons did rest ih =>
      intro acc
      obtain ⟨⟨acc1, l1⟩, h1⟩ := hpair tid tpos tprev ttrail acc did
      obtain ⟨⟨acc3, l2⟩, h2⟩ := ih acc1
      refine ⟨(acc3, l1 ++ l2), ?_⟩
      unfold damage_pair_fold
      rw [h1]
      simp only [bind, Except.bind]
      rw [h2]
  have htarget : ∀ tid acc,
      ∃ r, apply_damage_for_target s tid acc (candidate_damagers s) =
        .ok r := by
    intro tid acc
    unfold apply_damage_for_target
    split
    · exact ⟨_, Eq.refl _⟩
    · split
      · exact ⟨_, Eq.refl _⟩
      · exact hfold tid _ _ _ (candidate_damagers s) acc
  have htfold : ∀ targets acc,
      ∃ r, damage_target_fold s (candidate_damagers s) targets acc =
        .ok r := by
    intro targets
    induction targets with
    | nil => intro acc; exact ⟨_, Eq.refl _⟩
    | cons tid rest ih =>
      intro acc
      obtain ⟨⟨acc1, l1⟩, h1⟩ := htarget tid acc
      obtain ⟨⟨acc3, l2⟩, h2⟩ := ih acc1
      refine ⟨(acc3, l1 ++ l2), ?_⟩
      unfold damage_target_fold
      rw [h1]
      simp only [bind, Except.bind]
      rw [h2]
  obtain ⟨⟨acc, log⟩, hrun⟩ := htfold (Pm.keys s.health)
    ⟨s.health, s.dead, s.usage_limit, s.damage_hits⟩
  refine ⟨({ s with
      health := acc.health
      dead := acc.dead
      usage_limit := acc.usage_limit
      damage_hits := acc.damage_hits }, log), ?_⟩
  unfold damage_system
  rw [hrun]
  rfl

/-! ## C9: negative damage is a fatal configuration error -/

/-- C9: whenever the damage system reaches the point of applying a
damager's damage to a target (the hit is fresh this turn and no immunity
or phasing effect is selected for the target), a negative damage amount
raises an error rather than being clamped or applied; and when every
damage amount in the state is non-negative, damage resolution never
raises. -/
theorem damage_negative_amount_raises :
    (∀ (s : State) (tid did : EntityID) (acc : DmgAcc) (d : Damage),
      (tid, did, s.turn) ∉ acc.damage_hits →
      (∀ st, Pm.get s.status tid = some st →
        get_status_effect st.effect_ids
          [Pm.keys s.immunity, Pm.keys s.phasing]
          s.time_limit acc.usage_limit = none) →
      Pm.get s.damage did = some d → d.amount < 0 →
      apply_single_damage s tid did acc =
        .error "Damager has negative damage") ∧
    (∀ s : State,
      (∀ did d, Pm.get s.damage did = some d → 0 ≤ d.amount) →
      ∃ r, damage_system s = .ok r) := by
  constructor
  · intro s tid did acc d hc hnoeff hd hneg
    have hhit : apply_single_damage_hit s tid did acc
        (match Pm.get s.status tid with
          | some _ => acc.usage_limit
          | none => acc.usage_limit) =
        .error "Damager has negative damage" := by
      unfold apply_single_damage_hit
      rw [if_pos (by unfold damager_amount; rw [hd]; exact hneg)]
    cases hst : Pm.get s.status tid with
    | none =>
      rw [apply_single_damage_eq_no_status s tid did acc hc hst]
      unfold apply_single_damage_hit
      rw [if_pos (by unfold damager_amount; rw [hd]; exact hneg)]
    | some st =>
      have husp : use_status_effect_if_present st.effect_ids
          [Pm.keys s.immunity, Pm.keys s.phasing]
          s.time_limit acc.usage_limit = (acc.usage_limit, none) := by
        unfold use_status_effect_if_present
        rw [hnoeff st hst]
      rw [apply_single_damage_eq_not_avoided s tid did acc st
        acc.usage_limit hc hst husp]
      unfold apply_single_damage_hit
      rw [if_pos (by unfold damager_amount; rw [hd]; exact hneg)]
  · exact damage_system_total

/-- When one damager evaluation logs nothing, the health and dead stores
come through unchanged. -/
theorem apply_single_damage_empty_log (s : State) (tid did : EntityID)
    (acc acc2 : DmgAcc)
    (h : apply_single_damage s tid did acc = .ok (acc2, [])) :
    acc2.health = acc.health ∧ acc2.dead = acc.dead := by
  rcases apply_single_damage_spec s tid did acc acc2 [] h with
    ⟨_, _, hh, hd⟩ | ⟨hl, _, _, _⟩
  · exact ⟨hh, hd⟩
  · exact absurd hl (by simp)

/-- Empty-log frame fact for damage_pair. -/
theorem damage_pair_empty_log (s : State) (tid : EntityID) (tpos : Position)
    (tprev : Option Position) (ttrail : List Position) (acc acc2 : DmgAcc)
    (did : EntityID)
    (h : damage_pair s tid tpos tprev ttrail acc did = .ok (acc2, [])) :
    acc2.health = acc.health ∧ acc2.dead = acc.dead := by
  have htriv : (Except.ok (acc, []) :
      Except String (DmgAcc × List DamageHit)) = .ok (acc2, []) →
      acc2.health = acc.health ∧ acc2.dead = acc.dead := by
    intro heq
    rw [Except.ok.injEq, Prod.mk.injEq] at heq
    rw [← heq.1]
    exact ⟨rfl, rfl⟩
  have hok : apply_single_damage s tid did acc = .ok (acc2, []) →
      acc2.health = acc.health ∧ acc2.dead = acc.dead :=
    apply_single_damage_empty_log s tid did acc acc2
  unfold damage_pair at h
  split at h
  · exact htriv h
  · split at h
    · exact htriv h
    · split at h
      · split at h
        · exact hok h
        · exact htriv h
      · split at h
        · exact hok h
        · exact htriv h
      · dsimp only at h
        split at h
        · exact htriv h
        · split at h
          · exact hok h
          · exact htriv h

/-- Empty-log frame fact for the damager fold. -/
theorem damage_pair_fold_empty_log (s : State) (tid : EntityID)
    (tpos : Position) (tprev : Option Position) (ttrail : List Position) :
    ∀ (damagers : List EntityID) (acc acc2 : DmgAcc),
    damage_pair_fold s tid tpos tprev ttrail damagers acc = .ok (acc2, []) →
    acc2.health = acc.health ∧ acc2.dead = acc.dead := by
  intro damagers
  induction damagers with
  | nil =>
    intro acc acc2 h
    unfold damage_pair_fold at h
    rw [Except.ok.injEq, Prod.mk.injEq] at h
    rw [← h.1]
    exact ⟨rfl, rfl⟩
  | cons did rest ih =>
    intro acc acc2 h
    unfold damage_pair_fold at h
    cases hdp : damage_pair s tid tpos tprev ttrail acc did with
    | error e =>
      rw [hdp] at h
      simp only [bind, Except.bind] at h
      exact absurd h (by simp)
    | ok p =>
      obtain ⟨acc1, l1⟩ := p
      rw [hdp] at h
      simp only [bind, Except.bind] at h
      cases hdf : damage_pair_fold s tid tpos tprev ttrail rest acc1 with
      | error e => rw [hdf] at h; exact absurd h (by simp)
      | ok p2 =>
        obtain ⟨acc3, l2⟩ := p2
        rw [hdf] at h
        rw [Except.ok.injEq, Prod.mk.injEq] at h
        obtain ⟨h1, h2⟩ := h
        obtain ⟨hl1, hl2⟩ := List.append_eq_nil.mp h2
        subst h1 hl1 hl2
        obtain ⟨e1, e2⟩ := damage_pair_empty_log s tid tpos tprev ttrail
          acc acc1 did hdp
        obtain ⟨e3, e4⟩ := ih acc1 acc3 hdf
        rw [e3, e4, e1, e2]
        exact ⟨rfl, rfl⟩

/-- Empty-log frame fact for one target evaluation. -/
theorem apply_damage_for_target_empty_log (s : State) (tid : EntityID)
    (acc acc2 : DmgAcc) (damager_ids : List EntityID)
    (h : apply_damage_for_target s tid acc damager_ids = .ok (acc2, [])) :
    acc2.health = acc.health ∧ acc2.dead = acc.dead := by
  have htriv : (Except.ok (acc, []) :
      Except String (DmgAcc × List DamageHit)) = .ok (acc2, []) →
      acc2.health = acc.health ∧ acc2.dead = acc.dead := by
    intro heq
    rw [Except.ok.injEq, Prod.mk.injEq] at heq
    rw [← heq.1]
    exact ⟨rfl, rfl⟩
  unfold apply_damage_for_target at h
  split at h
  · exact htriv h
  · split at h
    · exact htriv h
    · exact damage_pair_fold_empty_log s tid _ _ _ damager_ids acc acc2 h

/-! ## C10: no self-damage -/

/-- C10: a single damage_system invocation never applies an entity's own
damage to itself: no (e, e, turn) event is ever logged, and an entity
receiving no damage event keeps its health and dead entries unchanged, so
an entity whose only overlapping damager is itself is untouched even
though it trivially overlaps its own position. -/
theorem damage_system_no_self_damage (s s2 : State) (l : List DamageHit)
    (h : damage_system s = .ok (s2, l)) :
    (∀ e n, (e, e, n) ∉ l) ∧
    (∀ e, (∀ d n, (e, d, n) ∉ l) →
      Pm.get s2.health e = Pm.get s.health e ∧
      Pm.get s2.dead e = Pm.get s.dead e) := by
  have hshape := (damage_system_spec s s2 l h).2.1
  constructor
  · intro e n hm
    obtain ⟨tid, did, hev, hne⟩ := hshape (e, e, n) hm
    rw [Prod.mk.injEq, Prod.mk.injEq] at hev
    exact hne (hev.2.1.symm.trans hev.1)
  · intro e hnoev
    unfold damage_system at h
    cases hdf : damage_target_fold s (candidate_damagers s)
        (Pm.keys s.health)
        ⟨s.health, s.dead, s.usage_limit, s.damage_hits⟩ with
    | error er =>
      rw [hdf] at h
      simp only [bind, Except.bind] at h
      exact absurd h (by simp)
    | ok p =>
      obtain ⟨acc, l1⟩ := p
      rw [hdf] at h
      simp only [bind, Except.bind] at h
      rw [Except.ok.injEq, Prod.mk.injEq] at h
      obtain ⟨h1, h2⟩ := h
      subst h2
      have hpres : ∀ targets acc0 acc2 (lg : List DamageHit),
          damage_target_fold s (candidate_damagers s) targets acc0 =
            .ok (acc2, lg) →
          (∀ d n, (e, d, n) ∉ lg) →
          Pm.get acc2.health e = Pm.get acc0.health e ∧
          Pm.get acc2.dead e = Pm.get acc0.dead e := by
        intro targets
        induction targets with
        | nil =>
          intro acc0 acc2 lg hh _
          unfold damage_target_fold at hh
          rw [Except.ok.injEq, Prod.mk.injEq] at hh
          rw [hh.1]
          exact ⟨rfl, rfl⟩
        | cons tid rest ih =>
          intro acc0 acc2 lg hh hno
          unfold damage_target_fold at hh
          cases hdp : apply_damage_for_target s tid acc0
              (candidate_damagers s) with
          | error er =>
            rw [hdp] at hh
            simp only [bind, Except.bind] at hh
            exact absurd hh (by simp)
          | ok p =>
            obtain ⟨acc1, lg1⟩ := p
            rw [hdp] at hh
            simp only [bind, Except.bind] at hh
            cases hdf2 : damage_target_fold s (candidate_damagers s) rest
                acc1 with
            | error er =>
              rw [hdf2] at hh
              exact absurd hh (by simp)
            | ok p2 =>
              obtain ⟨acc3, lg2⟩ := p2
              rw [hdf2] at hh
              rw [Except.ok.injEq, Prod.mk.injEq] at hh
              obtain ⟨hh1, hh2⟩ := hh
              subst hh1 hh2
              have hno1 : ∀ d n, (e, d, n) ∉ lg1 := fun d n hm =>
                hno d n (List.mem_append_left _ hm)
              have hno2 : ∀ d n, (e, d, n) ∉ lg2 := fun d n hm =>
                hno d n (List.mem_append_right _ hm)
              obtain ⟨hls1, hshape1, hother1⟩ :=
                apply_damage_for_target_spec s tid acc0 acc1
                  (candidate_damagers s) lg1 hdp
              have hstep1 : Pm.get acc1.health e = Pm.get acc0.health e ∧
                  Pm.get acc1.dead e = Pm.get acc0.dead e := by
                by_cases he : e = tid
                · subst he
                  cases hl1 : lg1 with
                  | nil =>
                    subst hl1
                    obtain ⟨eh, ed⟩ := apply_damage_for_target_empty_log s
                      e acc0 acc1 (candidate_damagers s) hdp
                    rw [eh, ed]
                    exact ⟨rfl, rfl⟩
                  | cons ev evs =>
                    exfalso
                    subst hl1
                    obtain ⟨did2, hev, _⟩ :=
                      hshape1 ev (List.mem_cons_self ev evs)
                    subst hev
                    exact hno1 did2 s.turn (List.mem_cons_self _ _)
                · exact hother1 e he
              have hstep2 := ih acc1 acc3 lg2 hdf2 hno2
              rw [hstep2.1, hstep2.2, hstep1.1, hstep1.2]
              exact ⟨rfl, rfl⟩
      have := hpres (Pm.keys s.health)
        ⟨s.health, s.dead, s.usage_limit, s.damage_hits⟩ acc l1 hdf hnoev
      rw [← h1]
      exact this

/-! ## C2: push resolution -/

theorem Pm.get_of_mem_nodup {α : Type} (m : Pm α) (k : EntityID) (v : α)
    (hnd : (Pm.keys m).Nodup) (hm : (k, v) ∈ m) : Pm.get m k = some v := by
  induction m with
  | nil => exact absurd hm (List.not_mem_nil _)
  | cons kv rest ih =>
    obtain ⟨k0, w⟩ := kv
    rcases List.mem_cons.mp hm with heq | hmem
    · rw [Prod.mk.injEq] at heq
      obtain ⟨h1, h2⟩ := heq
      subst h1 h2
      simp [Pm.get]
    · have hk : k ≠ k0 := by
        intro hkk
        subst hkk
        have : k ∈ Pm.keys rest :=
          List.mem_map.mpr ⟨(k, v), hmem, rfl⟩
        exact (List.nodup_cons.mp hnd).1 this
      have hrest : Pm.get rest k = some v :=
        ih (List.nodup_cons.mp hnd).2 hmem
      show (if k0 = k then some w else Pm.get rest k) = some v
      rw [if_neg (fun h => hk h.symm)]
      exact hrest

theorem mem_entities_at (s : State) (pos : Position) (q : EntityID) :
    q ∈ entities_at s pos ↔ (q, pos) ∈ s.position := by
  unfold entities_at
  constructor
  · intro hm
    obtain ⟨kv, hkv, hq⟩ := List.mem_map.mp hm
    obtain ⟨hmem, hp⟩ := List.mem_filter.mp hkv
    have : kv = (q, pos) := by
      obtain ⟨a, b⟩ := kv
      simp only at hq
      simp only [decide_eq_true_eq] at hp
      subst hq hp
      rfl
    rw [this] at hmem
    exact hmem
  · intro hm
    exact List.mem_map.mpr ⟨(q, pos), List.mem_filter.mpr ⟨hm, by simp⟩, rfl⟩

/-- C2: for every acting entity with a position and target cell holding at
least one pushable (the actor moving into the cell, so its own cell
differs), if the push destination two cells along the direction of travel
is out of bounds (compute_destination none) or blocked by any blocking,
pushable or collidable entity, push_system returns the state unchanged;
otherwise every pushable at the target cell is relocated to the
destination, the actor occupies the target cell, all other entities stay
put, and no other state field changes.  Position keys are assumed unique,
as produced by the store update operation. -/
theorem push_system_spec (move_fn : MoveFnSpec) (s : State) (eid : EntityID)
    (cur next_pos : Position)
    (hwf : (Pm.keys s.position).Nodup)
    (hcur : Pm.get s.position eid = some cur)
    (hmove : cur ≠ next_pos)
    (hpush : entities_with_components_at s next_pos
      (Pm.keys s.pushable) ≠ []) :
    (compute_destination move_fn s cur next_pos = none →
      push_system move_fn s eid next_pos = s) ∧
    (∀ d, compute_destination move_fn s cur next_pos = some d →
      (is_blocked_at s d true true = true →
        push_system move_fn s eid next_pos = s) ∧
      (is_blocked_at s d true true = false →
        Pm.get (push_system move_fn s eid next_pos).position eid =
          some next_pos ∧
        (∀ p ∈ entities_with_components_at s next_pos
          (Pm.keys s.pushable),
          Pm.get (push_system move_fn s eid next_pos).position p = some d) ∧
        (∀ q, q ≠ eid →
          q ∉ entities_with_components_at s next_pos (Pm.keys s.pushable) →
          Pm.get (push_system move_fn s eid next_pos).position q =
            Pm.get s.position q) ∧
        push_system move_fn s eid next_pos = { s with
          position := (push_system move_fn s eid next_pos).position })) := by
  have hPne : (entities_with_components_at s next_pos
      (Pm.keys s.pushable)).isEmpty = false := by
    cases hP : entities_with_components_at s next_pos (Pm.keys s.pushable)
    · exact absurd hP hpush
    · rfl
  have heid_notin : eid ∉ entities_with_components_at s next_pos
      (Pm.keys s.pushable) := by
    intro hmem
    obtain ⟨hat, _⟩ := List.mem_filter.mp hmem
    have : Pm.get s.position eid = some next_pos :=
      Pm.get_of_mem_nodup s.position eid next_pos hwf
        ((mem_entities_at s next_pos eid).mp hat)
    rw [hcur] at this
    exact hmove (Option.some.inj this)
  constructor
  · intro hdest
    simp only [push_system, hcur, hPne, hdest]
    simp
  · intro d hdest
    constructor
    · intro hblocked
      simp only [push_system, hcur, hPne, hdest, hblocked]
      simp
    · intro hfree
      have hresult : push_system move_fn s eid next_pos =
          { s with position := (List.foldl
            (fun pm pushable_id => Pm.set pm pushable_id d)
            (Pm.set s.position eid next_pos)
            (entities_with_components_at s next_pos
              (Pm.keys s.pushable))) } := by
        simp only [push_system, hcur, hPne, hdest, hfree]
        simp
      refine ⟨?_, ?_, ?_, ?_⟩
      · rw [hresult]
        show Pm.get (List.foldl _ _ _) eid = some next_pos
        rw [Pm.get_foldl_set_const]
        rw [if_neg heid_notin, Pm.get_set, if_pos rfl]
      · intro p hp
        rw [hresult]
        show Pm.get (List.foldl _ _ _) p = some d
        rw [Pm.get_foldl_set_const, if_pos hp]
      · intro q hq hqp
        rw [hresult]
        show Pm.get (List.foldl _ _ _) q = Pm.get s.position q
        rw [Pm.get_foldl_set_const, if_neg hqp, Pm.get_set,
          if_neg (fun h => hq h.symm)]
      · rw [hresult]

/-! ## C8: effect selection and consumption -/

theorem Pm.contains_eq_false_iff {α : Type} (m : Pm α) (i : EntityID) :
    Pm.contains m i = false ↔ Pm.get m i = none := by
  unfold Pm.contains
  cases Pm.get m i <;> simp

/-- In a list sorted by the natural order, find? returns the least element
satisfying the predicate. -/
theorem find_sorted_min (p : EntityID → Bool) :
    ∀ (l : List EntityID), List.Sorted (fun a b => a ≤ b) l →
    ∀ x, l.find? p = some x →
    x ∈ l ∧ p x = true ∧ ∀ y ∈ l, p y = true → x ≤ y := by
  intro l
  induction l with
  | nil => intro _ x hf; exact absurd hf (by simp)
  | cons a t ih =>
    intro hs x hf
    by_cases hpa : p a = true
    · rw [List.find?_cons_of_pos _ hpa] at hf
      obtain rfl := Option.some.inj hf
      refine ⟨List.mem_cons_self _ _, hpa, ?_⟩
      intro y hy _
      rcases List.mem_cons.mp hy with rfl | hyt
      · exact Nat.le_refl _
      · exact List.rel_of_sorted_cons hs y hyt
    · rw [List.find?_cons_of_neg _ hpa] at hf
      obtain ⟨hx, hpx, hmin⟩ := ih (List.Sorted.of_cons hs) x hf
      refine ⟨List.mem_cons_of_mem _ hx, hpx, ?_⟩
      intro y hy hpy
      rcases List.mem_cons.mp hy with rfl | hyt
      · exact absurd hpy hpa
      · exact hmin y hyt hpy

/-- The head of a list sorted by the natural order is its minimum. -/
theorem head_sorted_min :
    ∀ (l : List EntityID), List.Sorted (fun a b => a ≤ b) l →
    ∀ x, l.head? = some x → x ∈ l ∧ ∀ y ∈ l, x ≤ y := by
  intro l hs x hh
  cases l with
  | nil => exact absurd hh (by simp)
  | cons a t =>
    obtain rfl : a = x := Option.some.inj hh
    refine ⟨List.mem_cons_self _ _, ?_⟩
    intro y hy
    rcases List.mem_cons.mp hy with rfl | hyt
    · exact Nat.le_refl _
    · exact List.rel_of_sorted_cons hs y hyt

/-- C8: the effect-selection function returns, among the surviving ids
(present in a requested store and not expired), the lowest id without a
usage-limit entry when one exists, and otherwise the lowest-id
usage-limited survivor; it returns none exactly when no survivor exists;
consuming the selected effect decrements its usage amount by exactly one
when it is usage-limited and changes nothing otherwise. -/
theorem get_status_effect_spec (effect_ids : Ps)
    (effects : List (List EntityID)) (tl : Pm TimeLimit)
    (ul : Pm UsageLimit) :
    (get_status_effect effect_ids effects tl ul = none ↔
      status_effect_survivors effect_ids effects tl ul = []) ∧
    (∀ e, get_status_effect effect_ids effects tl ul = some e →
      e ∈ status_effect_survivors effect_ids effects tl ul ∧
      ((Pm.get ul e = none ∧
        (∀ e2 ∈ status_effect_survivors effect_ids effects tl ul,
          Pm.get ul e2 = none → e ≤ e2)) ∨
       (Pm.get ul e ≠ none ∧
        (∀ e2 ∈ status_effect_survivors effect_ids effects tl ul,
          Pm.get ul e2 ≠ none) ∧
        (∀ e2 ∈ status_effect_survivors effect_ids effects tl ul,
          e ≤ e2)))) ∧
    (∀ e u, Pm.get ul e = some u →
      Pm.get (use_status_effect e ul) e = some ⟨u.amount - 1⟩ ∧
      ∀ e2, e2 ≠ e → Pm.get (use_status_effect e ul) e2 = Pm.get ul e2) ∧
    (∀ e, Pm.get ul e = none → use_status_effect e ul = ul) := by
  have hsurv : status_effect_survivors effect_ids effects tl ul =
      List.filter (status_effect_unexpired tl ul)
        (List.filter (status_effect_relevant effects) effect_ids) := rfl
  set relevant := List.filter (status_effect_relevant effects) effect_ids
    with hrel
  set valid := List.filter (status_effect_unexpired tl ul) relevant
    with hval
  have hget : get_status_effect effect_ids effects tl ul =
      if relevant.isEmpty then none
      else if valid.isEmpty then none
      else
        match List.find? (fun eid => !Pm.contains ul eid)
          (List.insertionSort (fun a b => a ≤ b) valid) with
        | some eid => some eid
        | none => (List.insertionSort (fun a b => a ≤ b) valid).head? := rfl
  have hsorted : List.Sorted (fun a b => a ≤ b)
      (List.insertionSort (fun a b => a ≤ b) valid) :=
    List.sorted_insertionSort _ _
  have hperm : ∀ y, y ∈ List.insertionSort (fun a b => a ≤ b) valid ↔
      y ∈ valid := fun y => (List.perm_insertionSort _ _).mem_iff
  refine ⟨?_, ?_, ?_, ?_⟩
  · -- none iff no survivors
    rw [hget, hsurv]
    by_cases h1 : relevant.isEmpty
    · have : relevant = [] := List.isEmpty_iff.mp h1
      constructor
      · intro _
        rw [hval, this]
        rfl
      · intro _
        rw [if_pos h1]
    · by_cases h2 : valid.isEmpty
      · constructor
        · intro _
          exact List.isEmpty_iff.mp h2
        · intro _
          rw [if_neg h1, if_pos h2]
      · rw [if_neg h1, if_neg h2]
        constructor
        · intro hnone
          cases hf : List.find? (fun eid => !Pm.contains ul eid)
              (List.insertionSort (fun a b => a ≤ b) valid) with
          | some eid => rw [hf] at hnone; exact absurd hnone (by simp)
          | none =>
            rw [hf] at hnone
            cases hl : List.insertionSort (fun a b => a ≤ b) valid with
            | nil =>
              have hp : List.Perm ([] : List EntityID) valid :=
                hl ▸ List.perm_insertionSort (fun a b => a ≤ b) valid
              exact (List.Perm.nil_eq hp).symm
            | cons a t => rw [hl] at hnone; exact absurd hnone (by simp)
        · intro hnil
          exact absurd (List.isEmpty_iff.mpr hnil) h2
  · -- characterization of the selected id
    intro e hsome
    rw [hget] at hsome
    by_cases h1 : relevant.isEmpty
    · rw [if_pos h1] at hsome
      exact absurd hsome (by simp)
    · rw [if_neg h1] at hsome
      by_cases h2 : valid.isEmpty
      · rw [if_pos h2] at hsome
        exact absurd hsome (by simp)
      · rw [if_neg h2] at hsome
        rw [hsurv]
        cases hf : List.find? (fun eid => !Pm.contains ul eid)
            (List.insertionSort (fun a b => a ≤ b) valid) with
        | some eid =>
          rw [hf] at hsome
          obtain rfl : eid = e := Option.some.inj hsome
          obtain ⟨hmem, hpe, hmin⟩ := find_sorted_min _ _ hsorted eid hf
          refine ⟨(hperm eid).mp hmem, Or.inl ⟨?_, ?_⟩⟩
          · have hcf : Pm.contains ul eid = false := by simpa using hpe
            exact (Pm.contains_eq_false_iff ul eid).mp hcf
          · intro e2 he2 hue2
            refine hmin e2 ((hperm e2).mpr he2) ?_
            have hcf : Pm.contains ul e2 = false :=
              (Pm.contains_eq_false_iff ul e2).mpr hue2
            simp [hcf]
        | none =>
          rw [hf] at hsome
          obtain ⟨hmem, hmin⟩ := head_sorted_min _ hsorted e hsome
          have hall : ∀ e2 ∈ valid, Pm.get ul e2 ≠ none := by
            intro e2 he2 hnone
            have := List.find?_eq_none.mp hf e2 ((hperm e2).mpr he2)
            rw [Bool.not_eq_true', Pm.contains_eq_false_iff] at this
            exact this hnone
          exact ⟨(hperm e).mp hmem,
            Or.inr ⟨hall e ((hperm e).mp hmem),
              hall, fun e2 he2 => hmin e2 ((hperm e2).mpr he2)⟩⟩
  · -- consumption decrements by one
    intro e u hu
    unfold use_status_effect
    rw [hu]
    constructor
    · rw [Pm.get_set, if_pos rfl]
    · intro e2 he2
      rw [Pm.get_set, if_neg (fun h => he2 h.symm)]
  · -- no usage limit: no-op
    intro e hnone
    unfold use_status_effect
    rw [hnone]

/-! ## C5: pathfinding phasing evasion does not persist the consumption -/

/-- C5 (code bug evidence): in pathfinding_bug_state the pathfinding
target holds an unconsumed usage-limited phasing effect (id 5, amount 1),
the selection function does select it, and the seeker (id 3) does not
move — but pathfinding_system returns the state entirely unchanged: the
usage amount is still 1 in the returned state, because entity_pathfinding
drops the updated usage-limit map it computes.  The claim's consumption
half (amount becomes 0) is therefore false on the code. -/
theorem pathfinding_phasing_usage_not_consumed :
    get_status_effect [5] [Pm.keys pathfinding_bug_state.phasing]
      pathfinding_bug_state.time_limit pathfinding_bug_state.usage_limit =
      some 5 ∧
    Pm.get pathfinding_bug_state.usage_limit 5 = some ⟨1⟩ ∧
    pathfinding_system pathfinding_bug_state = pathfinding_bug_state ∧
    Pm.get (pathfinding_system pathfinding_bug_state).usage_limit 5 =
      some ⟨1⟩ ∧
    Pm.get (pathfinding_system pathfinding_bug_state).position 3 =
      some ⟨3, 0⟩ := by
  decide

/-! ## C4: GC reachability after step -/

/-- C4 (code bug evidence): stepping gc_bug_state with WAIT leaves effect
entity 8 as a key of the immunity store even though it is not reachable
(in the specified transitive-closure sense) in the returned state: its
only referrer was the status of entity 7, itself unreachable, and
compute_alive_entities counts status references of unreachable entities
as alive.  This contradicts the claim that after any step every key of
any component store is reachable. -/
theorem gc_keeps_unreachable_entity :
    ((step mv0 obj0 gc_bug_state .wait (some 1)).toOption.map
      (fun r => (Pm.contains r.1.immunity 8, spec_reachable r.1 8))) =
      some (true, false) := by
  decide

/-! ## C3: portal teleportation -/

/-- C3 counterexample: in portal_chain_state the collidable entity 10
stands on portal 1 at (0,0), whose pair entity 2 sits at (1,0); a second
portal 3 at (1,0) pairs to entity 4 at (2,0), and (1,0) is already on
entity 10's recorded trail.  One portal_system invocation moves entity 10
to (2,0) — two hops, not the at-most-one-hop the claim states: the only
portal at its cell leads to (1,0), and the result is neither its original
cell nor that one-hop destination. -/
theorem portal_system_double_hop :
    Pm.get portal_chain_state.position 10 = some ⟨0, 0⟩ ∧
    Pm.get portal_chain_state.portal 1 = some ⟨2⟩ ∧
    Pm.get portal_chain_state.position 1 = some ⟨0, 0⟩ ∧
    Pm.get portal_chain_state.position 2 = some ⟨1, 0⟩ ∧
    Pm.get portal_chain_state.portal 3 = some ⟨4⟩ ∧
    Pm.get portal_chain_state.position 3 = some ⟨1, 0⟩ ∧
    Pm.get portal_chain_state.position 4 = some ⟨2, 0⟩ ∧
    Pm.keys portal_chain_state.portal = [1, 3] ∧
    Pm.get (portal_system portal_chain_state).position 10 = some ⟨2, 0⟩ ∧
    ((⟨2, 0⟩ : Position) ≠ ⟨0, 0⟩ ∧ (⟨2, 0⟩ : Position) ≠ ⟨1, 0⟩) := by
  constructor
  · decide
  constructor
  · decide
  constructor
  · decide
  constructor
  · decide
  constructor
  · decide
  constructor
  · decide
  constructor
  · decide
  constructor
  · decide
  constructor
  · decide
  · decide

/-! ## Augmented-trail membership lemmas (toward the portal theorem) -/

theorem Ps.mem_add (s : Ps) (i j : EntityID) :
    j ∈ Ps.add s i ↔ j = i ∨ j ∈ s := by
  induction s with
  | nil => simp [Ps.add]
  | cons k rest ih =>
    by_cases h1 : i < k
    · simp [Ps.add, h1]
    · by_cases h2 : i = k
      · subst h2
        simp [Ps.add, h1]
      · simp [Ps.add, h1, h2, ih]
        constructor
        · rintro (rfl | rfl | hm)
          · exact Or.inr (Or.inl rfl)
          · exact Or.inl rfl
          · exact Or.inr (Or.inr hm)
        · rintro (rfl | rfl | hm)
          · exact Or.inr (Or.inl rfl)
          · exact Or.inl rfl
          · exact Or.inr (Or.inr hm)

theorem Ps.mem_foldl_add (l : List EntityID) :
    ∀ (base : Ps) (j : EntityID),
    j ∈ List.foldl (fun s e => Ps.add s e) base l ↔ j ∈ base ∨ j ∈ l := by
  induction l with
  | nil => intro base j; simp
  | cons i rest ih =>
    intro base j
    show j ∈ List.foldl _ (Ps.add base i) rest ↔ _
    rw [ih (Ps.add base i) j, Ps.mem_add]
    constructor
    · rintro ((rfl | hb) | hr)
      · exact Or.inr (List.mem_cons_self _ _)
      · exact Or.inl hb
      · exact Or.inr (List.mem_cons_of_mem _ hr)
    · rintro (hb | hm)
      · exact Or.inl (Or.inr hb)
      · rcases List.mem_cons.mp hm with rfl | hr
        · exact Or.inl (Or.inl rfl)
        · exact Or.inr hr

theorem Trail.getD_set (t : Trail) (q : Position) (v : Ps) (p : Position) :
    Trail.getD (Trail.set t q v) p = if q = p then v else Trail.getD t p := by
  induction t with
  | nil =>
    by_cases h : q = p <;> simp [Trail.set, Trail.getD, h]
  | cons kv rest ih =>
    obtain ⟨q0, w⟩ := kv
    by_cases h0 : q0 = q
    · subst h0
      by_cases h : q0 = p <;> simp [Trail.set, Trail.getD, h]
    · by_cases h : q0 = p
      · subst h
        have hqp : q ≠ q0 := fun hh => h0 hh.symm
        simp [Trail.set, Trail.getD, h0, hqp]
      · simp [Trail.set, Trail.getD, h0, h, ih]

/-- Membership in the current-positions fold of get_augmented_trail. -/
theorem aug_fold1_mem (s : State) :
    ∀ (ids : List EntityID) (acc : Trail) (p : Position) (e : EntityID),
    e ∈ Trail.getD (List.foldl
      (fun (acc : Trail) (eid : EntityID) =>
        match Pm.get s.position eid with
        | none => acc
        | some pos => Trail.set acc pos (Ps.add (Trail.getD acc pos) eid))
      acc ids) p ↔
    e ∈ Trail.getD acc p ∨ (e ∈ ids ∧ Pm.get s.position e = some p) := by
  intro ids
  induction ids with
  | nil => intro acc p e; simp
  | cons eid rest ih =>
    intro acc p e
    show e ∈ Trail.getD (List.foldl _
      (match Pm.get s.position eid with
        | none => acc
        | some pos => Trail.set acc pos (Ps.add (Trail.getD acc pos) eid))
      rest) p ↔ _
    cases hpos : Pm.get s.position eid with
    | none =>
      rw [ih acc p e]
      constructor
      · rintro (hb | ⟨hm, hp⟩)
        · exact Or.inl hb
        · exact Or.inr ⟨List.mem_cons_of_mem _ hm, hp⟩
      · rintro (hb | ⟨hm, hp⟩)
        · exact Or.inl hb
        · rcases List.mem_cons.mp hm with rfl | hr
          · rw [hpos] at hp; exact absurd hp (by simp)
          · exact Or.inr ⟨hr, hp⟩
    | some pos =>
      rw [ih _ p e, Trail.getD_set]
      by_cases hpp : pos = p
      · subst hpp
        rw [if_pos rfl, Ps.mem_add]
        constructor
        · rintro ((rfl | hb) | ⟨hm, hp⟩)
          · exact Or.inr ⟨List.mem_cons_self _ _, hpos⟩
          · exact Or.inl hb
          · exact Or.inr ⟨List.mem_cons_of_mem _ hm, hp⟩
        · rintro (hb | ⟨hm, hp⟩)
          · exact Or.inl (Or.inr hb)
          · rcases List.mem_cons.mp hm with rfl | hr
            · exact Or.inl (Or.inl rfl)
            · exact Or.inr ⟨hr, hp⟩
      · rw [if_neg hpp]
        constructor
        · rintro (hb | ⟨hm, hp⟩)
          · exact Or.inl hb
          · exact Or.inr ⟨List.mem_cons_of_mem _ hm, hp⟩
        · rintro (hb | ⟨hm, hp⟩)
          · exact Or.inl hb
          · rcases List.mem_cons.mp hm with rfl | hr
            · rw [hpos] at hp
              obtain rfl := Option.some.inj hp
              exact absurd rfl hpp
            · exact Or.inr ⟨hr, hp⟩

/-- Membership in the historic-trail merge fold of get_augmented_trail. -/
theorem aug_fold2_mem :
    ∀ (entries : List (Position × Ps)) (acc : Trail) (p : Position)
      (e : EntityID),
    e ∈ Trail.getD (List.foldl
      (fun (acc : Trail) (kv : Position × Ps) =>
        Trail.set acc kv.1
          (List.foldl (fun s e => Ps.add s e) (Trail.getD acc kv.1) kv.2))
      acc entries) p ↔
    e ∈ Trail.getD acc p ∨ ∃ kv ∈ entries, kv.1 = p ∧ e ∈ kv.2 := by
  intro entries
  induction entries with
  | nil => intro acc p e; simp
  | cons kv rest ih =>
    intro acc p e
    obtain ⟨q, members⟩ := kv
    show e ∈ Trail.getD (List.foldl _
      (Trail.set acc q
        (List.foldl (fun s e => Ps.add s e) (Trail.getD acc q) members))
      rest) p ↔ _
    rw [ih _ p e, Trail.getD_set]
    by_cases hqp : q = p
    · subst hqp
      rw [if_pos rfl, Ps.mem_foldl_add]
      constructor
      · rintro ((hb | hm) | ⟨kv2, hkv2, hp2, hm2⟩)
        · exact Or.inl hb
        · exact Or.inr ⟨(q, members), List.mem_cons_self _ _, rfl, hm⟩
        · exact Or.inr ⟨kv2, List.mem_cons_of_mem _ hkv2, hp2, hm2⟩
      · rintro (hb | ⟨kv2, hkv2, hp2, hm2⟩)
        · exact Or.inl (Or.inl hb)
        · rcases List.mem_cons.mp hkv2 with rfl | hr
          · exact Or.inl (Or.inr hm2)
          · exact Or.inr ⟨kv2, hr, hp2, hm2⟩
    · rw [if_neg hqp]
      constructor
      · rintro (hb | ⟨kv2, hkv2, hp2, hm2⟩)
        · exact Or.inl hb
        · exact Or.inr ⟨kv2, List.mem_cons_of_mem _ hkv2, hp2, hm2⟩
      · rintro (hb | ⟨kv2, hkv2, hp2, hm2⟩)
        · exact Or.inl hb
        · rcases List.mem_cons.mp hkv2 with rfl | hr
          · exact absurd hp2 hqp
          · exact Or.inr ⟨kv2, hr, hp2, hm2⟩

/-- Membership characterization of the augmented trail: the entity either
currently occupies the cell (and is tracked), or some historic trail entry
at that cell contains it. -/
theorem mem_get_augmented_trail (s : State) (ids : Ps) (p : Position)
    (e : EntityID) :
    e ∈ Trail.getD (get_augmented_trail s ids) p ↔
    ((e ∈ ids ∧ Pm.get s.position e = some p) ∨
      ∃ kv ∈ s.trail, kv.1 = p ∧ e ∈ kv.2) := by
  unfold get_augmented_trail
  rw [aug_fold2_mem, aug_fold1_mem]
  simp [Trail.getD]

theorem Pm.mem_keys_of_contains {α : Type} (m : Pm α) (i : EntityID)
    (h : Pm.contains m i = true) : i ∈ Pm.keys m := by
  induction m with
  | nil => exact absurd h (by simp [Pm.contains, Pm.get])
  | cons kv rest ih =>
    obtain ⟨k, v⟩ := kv
    by_cases hk : k = i
    · subst hk
      exact List.mem_cons_self _ _
    · refine List.mem_cons_of_mem _ (ih ?_)
      have hred : Pm.get ((k, v) :: rest) i = Pm.get rest i := by
        show (if k = i then some v else Pm.get rest i) = Pm.get rest i
        rw [if_neg hk]
      unfold Pm.contains at h ⊢
      rw [hred] at h
      exact h

theorem mem_portal_entering (state : State) (aug : Trail) (pp : Position)
    (e : EntityID) :
    e ∈ portal_entering state aug pp ↔
    e ∈ Trail.getD aug pp ∧ Pm.contains state.collidable e = true ∧
    Pm.get state.prev_position e ≠ Pm.get state.position e ∧
    Pm.get state.position e = some pp := by
  unfold portal_entering
  rw [List.mem_filter, List.mem_filter]
  rw [Bool.and_eq_true, decide_eq_true_eq, decide_eq_true_eq]
  tauto

/-- Equation: portal without portal component is skipped. -/
theorem portal_system_entity_eq_no_portal (state : State) (aug : Trail)
    (pid : EntityID) (hp : Pm.get state.portal pid = none) :
    portal_system_entity state aug pid = state := by
  unfold portal_system_entity
  rw [hp]

/-- Equation: portal without a position is skipped. -/
theorem portal_system_entity_eq_no_position (state : State) (aug : Trail)
    (pid : EntityID) (portal : Portal)
    (hp : Pm.get state.portal pid = some portal)
    (hpp : Pm.get state.position pid = none) :
    portal_system_entity state aug pid = state := by
  unfold portal_system_entity
  rw [hp, hpp]

/-- Equation: pair entity without a position is skipped. -/
theorem portal_system_entity_eq_no_pair (state : State) (aug : Trail)
    (pid : EntityID) (portal : Portal) (pp : Position)
    (hp : Pm.get state.portal pid = some portal)
    (hpp : Pm.get state.position pid = some pp)
    (hqq : Pm.get state.position portal.pair_entity = none) :
    portal_system_entity state aug pid = state := by
  unfold portal_system_entity
  rw [hp, hpp]
  simp only [hqq]

/-- Equation: blocked pair cell suppresses the teleport entirely. -/
theorem portal_system_entity_eq_blocked (state : State) (aug : Trail)
    (pid : EntityID) (portal : Portal) (pp qq : Position)
    (hp : Pm.get state.portal pid = some portal)
    (hpp : Pm.get state.position pid = some pp)
    (hqq : Pm.get state.position portal.pair_entity = some qq)
    (hblocked : is_blocked_at state qq true true = true) :
    portal_system_entity state aug pid = state := by
  unfold portal_system_entity
  rw [hp, hpp]
  simp only [hqq, hblocked]
  rfl

/-- Equation: unblocked pair cell relocates every entering entity. -/
theorem portal_system_entity_eq_teleport (state : State) (aug : Trail)
    (pid : EntityID) (portal : Portal) (pp qq : Position)
    (hp : Pm.get state.portal pid = some portal)
    (hpp : Pm.get state.position pid = some pp)
    (hqq : Pm.get state.position portal.pair_entity = some qq)
    (hfree : is_blocked_at state qq true true = false) :
    portal_system_entity state aug pid = { state with
      position := (List.foldl (fun pm eid => Pm.set pm eid qq)
        state.position (portal_entering state aug pp)) } := by
  unfold portal_system_entity
  rw [hp, hpp]
  simp only [hqq, hfree]
  rfl

/-- Fold invariant for portal_system: processing any list of portal ids
(whose portals and pair entities are not collidable, and whose cells avoid
the tracked entity's historic trail) keeps every non-collidable entity in
place and leaves the tracked entity either unmoved or moved by exactly one
explained hop. -/
theorem portal_fold_one_hop (s : State) (e : EntityID)
    (aug : Trail) (haug : aug = get_augmented_trail s (Pm.keys s.collidable))
    (Hncol : ∀ pid ∈ Pm.keys s.portal,
      Pm.contains s.collidable pid = false ∧
      ∀ portal, Pm.get s.portal pid = some portal →
        Pm.contains s.collidable portal.pair_entity = false)
    (Htrail : ∀ kv ∈ s.trail, e ∈ kv.2 →
      ∀ pid ∈ Pm.keys s.portal, ∀ pp, Pm.get s.position pid = some pp →
        kv.1 ≠ pp) :
    ∀ (pids : List EntityID), (∀ pid ∈ pids, pid ∈ Pm.keys s.portal) →
    ∀ (pm : Pm Position),
    (∀ q, Pm.contains s.collidable q = false →
      Pm.get pm q = Pm.get s.position q) →
    (Pm.get pm e = Pm.get s.position e ∨ HopExplained s e pm) →
    ∃ pm2,
      List.foldl (fun st pid => portal_system_entity st aug pid)
        { s with position := pm } pids = { s with position := pm2 } ∧
      (∀ q, Pm.contains s.collidable q = false →
        Pm.get pm2 q = Pm.get s.position q) ∧
      (Pm.get pm2 e = Pm.get s.position e ∨ HopExplained s e pm2) := by
  intro pids
  induction pids with
  | nil =>
    intro _ pm inv1 inv2
    exact ⟨pm, rfl, inv1, inv2⟩
  | cons pid pids ih =>
    intro hsub pm inv1 inv2
    have hpid : pid ∈ Pm.keys s.portal := hsub pid (List.mem_cons_self _ _)
    have hsub2 : ∀ p ∈ pids, p ∈ Pm.keys s.portal :=
      fun p hp => hsub p (List.mem_cons_of_mem _ hp)
    have hrec : ∀ (pm1 : Pm Position),
        portal_system_entity { s with position := pm } aug pid =
          { s with position := pm1 } →
        (∀ q, Pm.contains s.collidable q = false →
          Pm.get pm1 q = Pm.get s.position q) →
        (Pm.get pm1 e = Pm.get s.position e ∨ HopExplained s e pm1) →
        ∃ pm2,
          List.foldl (fun st pid => portal_system_entity st aug pid)
            { s with position := pm } (pid :: pids) =
            { s with position := pm2 } ∧
          (∀ q, Pm.contains s.collidable q = false →
            Pm.get pm2 q = Pm.get s.position q) ∧
          (Pm.get pm2 e = Pm.get s.position e ∨ HopExplained s e pm2) := by
      intro pm1 heq hinv1 hinv2
      obtain ⟨pm2, hfold, i1, i2⟩ := ih hsub2 pm1 hinv1 hinv2
      refine ⟨pm2, ?_, i1, i2⟩
      show List.foldl _ (portal_system_entity { s with position := pm }
        aug pid) pids = _
      rw [heq]
      exact hfold
    cases hp : Pm.get s.portal pid with
    | none =>
      exact hrec pm (portal_system_entity_eq_no_portal _ aug pid hp)
        inv1 inv2
    | some portal =>
      have hpidncol : Pm.contains s.collidable pid = false :=
        (Hncol pid hpid).1
      have hpairncol : Pm.contains s.collidable portal.pair_entity = false :=
        (Hncol pid hpid).2 portal hp
      have hpos_pid : Pm.get pm pid = Pm.get s.position pid :=
        inv1 pid hpidncol
      cases hspp : Pm.get s.position pid with
      | none =>
        have hm : Pm.get pm pid = none := hpos_pid.trans hspp
        exact hrec pm (portal_system_entity_eq_no_position _ aug pid
          portal hp hm) inv1 inv2
      | some pp =>
        have hmpp : Pm.get pm pid = some pp := hpos_pid.trans hspp
        have hpair_pos : Pm.get pm portal.pair_entity =
            Pm.get s.position portal.pair_entity :=
          inv1 _ hpairncol
        cases hsqq : Pm.get s.position portal.pair_entity with
        | none =>
          have hm : Pm.get pm portal.pair_entity = none :=
            hpair_pos.trans hsqq
          exact hrec pm (portal_system_entity_eq_no_pair _ aug pid portal
            pp hp hmpp hm) inv1 inv2
        | some qq =>
          have hmqq : Pm.get pm portal.pair_entity = some qq :=
            hpair_pos.trans hsqq
          by_cases hbl : is_blocked_at { s with position := pm } qq true
              true = true
          · exact hrec pm (portal_system_entity_eq_blocked _ aug pid
              portal pp qq hp hmpp hmqq hbl) inv1 inv2
          · have hfree : is_blocked_at { s with position := pm } qq true
                true = false := by
              rw [Bool.not_eq_true] at hbl
              exact hbl
            have heq := portal_system_entity_eq_teleport
              { s with position := pm } aug pid portal pp qq hp hmpp hmqq
              hfree
            set entering := portal_entering { s with position := pm }
              aug pp with hent
            have hmem_ent : ∀ x, x ∈ entering ↔
                x ∈ Trail.getD aug pp ∧
                Pm.contains s.collidable x = true ∧
                Pm.get s.prev_position x ≠ Pm.get pm x ∧
                Pm.get pm x = some pp := by
              intro x
              rw [hent]
              exact mem_portal_entering { s with position := pm } aug pp x
            set pm1 := List.foldl (fun m i => Pm.set m i qq) pm entering
              with hpm1
            have hget1 : ∀ x, Pm.get pm1 x =
                if x ∈ entering then some qq else Pm.get pm x := by
              intro x
              rw [hpm1]
              exact Pm.get_foldl_set_const entering pm qq x
            have hinv1 : ∀ q, Pm.contains s.collidable q = false →
                Pm.get pm1 q = Pm.get s.position q := by
              intro q hq
              have hnm : q ∉ entering := by
                intro hmem
                have hcq := ((hmem_ent q).mp hmem).2.1
                rw [hcq] at hq
                exact absurd hq (by simp)
              rw [hget1 q, if_neg hnm]
              exact inv1 q hq
            have hinv2 : Pm.get pm1 e = Pm.get s.position e ∨
                HopExplained s e pm1 := by
              by_cases he : e ∈ entering
              · obtain ⟨haugmem, hcol, hprev, hpose⟩ := (hmem_ent e).mp he
                have hse : Pm.get s.position e = some pp := by
                  rw [haug] at haugmem
                  rcases (mem_get_augmented_trail s
                      (Pm.keys s.collidable) pp e).mp haugmem with
                    ⟨_, hsp⟩ | ⟨kv, hkv, hkvp, hkvm⟩
                  · exact hsp
                  · exact absurd hkvp
                      (Htrail kv hkv hkvm pid hpid pp hspp)
                refine Or.inr ⟨pid, portal, pp, qq, hpid, hp, hspp, hsqq,
                  hse, ?_, ?_⟩
                · rw [hpose] at hprev
                  exact hprev
                · rw [hget1 e, if_pos he]
              · have : Pm.get pm1 e = Pm.get pm e := by
                  rw [hget1 e, if_neg he]
                rw [this]
                rcases inv2 with hsame | hhop
                · exact Or.inl hsame
                · obtain ⟨pid0, p0, pp0, qq0, h1, h2, h3, h4, h5, h6, h7⟩ :=
                    hhop
                  exact Or.inr ⟨pid0, p0, pp0, qq0, h1, h2, h3, h4, h5, h6,
                    this.symm ▸ h7⟩
            have heq2 : portal_system_entity { s with position := pm } aug
                pid = { s with position := pm1 } := heq
            exact hrec pm1 heq2 hinv1 hinv2

/-- C3 (amended): per portal invocation against the snapshot augmented
trail, and with an unblocked pair cell, a collidable entity is relocated
to the paired cell exactly when its previous position differs from its
current one and its current position is the portal's cell; a blocked pair
cell suppresses all teleports of that portal call; and a single
portal_system invocation moves an entity through at most one portal hop
provided portals and their pair entities are not themselves collidable and
the entity's recorded trail does not touch any portal's cell. -/
theorem portal_system_spec :
    (∀ (s : State) (pid e : EntityID) (portal : Portal) (pp qq : Position),
      Pm.get s.portal pid = some portal →
      Pm.get s.position pid = some pp →
      Pm.get s.position portal.pair_entity = some qq →
      is_blocked_at s qq true true = false →
      Pm.contains s.collidable e = true →
      ((Pm.get s.prev_position e ≠ Pm.get s.position e ∧
          Pm.get s.position e = some pp) →
        Pm.get (portal_system_entity s
          (get_augmented_trail s (Pm.keys s.collidable)) pid).position e =
          some qq) ∧
      (¬ (Pm.get s.prev_position e ≠ Pm.get s.position e ∧
          Pm.get s.position e = some pp) →
        Pm.get (portal_system_entity s
          (get_augmented_trail s (Pm.keys s.collidable)) pid).position e =
          Pm.get s.position e)) ∧
    (∀ (s : State) (aug : Trail) (pid : EntityID) (portal : Portal)
      (pp qq : Position),
      Pm.get s.portal pid = some portal →
      Pm.get s.position pid = some pp →
      Pm.get s.position portal.pair_entity = some qq →
      is_blocked_at s qq true true = true →
      portal_system_entity s aug pid = s) ∧
    (∀ (s : State) (e : EntityID),
      (∀ pid ∈ Pm.keys s.portal,
        Pm.contains s.collidable pid = false ∧
        ∀ portal, Pm.get s.portal pid = some portal →
          Pm.contains s.collidable portal.pair_entity = false) →
      (∀ kv ∈ s.trail, e ∈ kv.2 →
        ∀ pid ∈ Pm.keys s.portal, ∀ pp, Pm.get s.position pid = some pp →
          kv.1 ≠ pp) →
      (Pm.get (portal_system s).position e = Pm.get s.position e ∨
        ∃ pid portal pp qq, pid ∈ Pm.keys s.portal ∧
          Pm.get s.portal pid = some portal ∧
          Pm.get s.position pid = some pp ∧
          Pm.get s.position portal.pair_entity = some qq ∧
          Pm.get s.position e = some pp ∧
          Pm.get s.prev_position e ≠ some pp ∧
          Pm.get (portal_system s).position e = some qq)) := by
  refine ⟨?_, ?_, ?_⟩
  · intro s pid e portal pp qq hp hpp hqq hfree hcol
    have heq := portal_system_entity_eq_teleport s
      (get_augmented_trail s (Pm.keys s.collidable)) pid portal pp qq
      hp hpp hqq hfree
    rw [heq]
    have hget : ∀ x, Pm.get (List.foldl (fun pm eid => Pm.set pm eid qq)
        s.position (portal_entering s
          (get_augmented_trail s (Pm.keys s.collidable)) pp)) x =
        if x ∈ portal_entering s
          (get_augmented_trail s (Pm.keys s.collidable)) pp
        then some qq else Pm.get s.position x :=
      fun x => Pm.get_foldl_set_const _ s.position qq x
    constructor
    · intro ⟨hprev, hpos⟩
      have hmem : e ∈ portal_entering s
          (get_augmented_trail s (Pm.keys s.collidable)) pp := by
        rw [mem_portal_entering]
        refine ⟨?_, hcol, hprev, hpos⟩
        rw [mem_get_augmented_trail]
        exact Or.inl ⟨Pm.mem_keys_of_contains _ _ hcol, hpos⟩
      show Pm.get (List.foldl _ s.position _) e = some qq
      rw [hget e, if_pos hmem]
    · intro hnot
      have hmem : e ∉ portal_entering s
          (get_augmented_trail s (Pm.keys s.collidable)) pp := by
        intro hmem
        rw [mem_portal_entering] at hmem
        exact hnot ⟨hmem.2.2.1, hmem.2.2.2⟩
      show Pm.get (List.foldl _ s.position _) e = Pm.get s.position e
      rw [hget e, if_neg hmem]
  · intro s aug pid portal pp qq hp hpp hqq hblocked
    exact portal_system_entity_eq_blocked s aug pid portal pp qq hp hpp
      hqq hblocked
  · intro s e Hncol Htrail
    have hfold := portal_fold_one_hop s e
      (get_augmented_trail s (Pm.keys s.collidable)) rfl Hncol Htrail
      (Pm.keys s.portal) (fun p hp => hp) s.position
      (fun q _ => rfl) (Or.inl rfl)
    obtain ⟨pm2, heq, _, hres⟩ := hfold
    have hps : portal_system s = { s with position := pm2 } := heq
    rw [hps]
    rcases hres with hsame | ⟨pid, portal, pp, qq, h1, h2, h3, h4, h5, h6,
      h7⟩
    · exact Or.inl hsame
    · exact Or.inr ⟨pid, portal, pp, qq, h1, h2, h3, h4, h5, h6, h7⟩

/-! ## Damage-hit log preservation across the pipeline

No system other than the damage system touches the damage_hits store
within a turn, so the LogStep freshness facts of damage_system_spec
compose across sub-steps and the final log of one step call has no
duplicate (target, damager, turn) triple. -/

theorem hits_foldl {β : Type} (g : State → β → State)
    (hg : ∀ s b, (g s b).damage_hits = s.damage_hits) :
    ∀ (l : List β) (s : State),
      (List.foldl g s l).damage_hits = s.damage_hits := by
  intro l
  induction l with
  | nil => intro s; rfl
  | cons b t ih =>
    intro s
    exact (ih (g s b)).trans (hg s b)

theorem moving_entity_step_hits (s : State) (eid : EntityID) (m : Moving) :
    (moving_entity_step s eid m).1.damage_hits = s.damage_hits := by
  unfold moving_entity_step
  repeat' first | split | dsimp only

theorem moving_steps_hits (eid : EntityID) :
    ∀ (n : Nat) (acc : State × Moving × Bool),
      (moving_steps eid n acc).1.damage_hits = acc.1.damage_hits := by
  intro n
  induction n with
  | zero => intro acc; rfl
  | succ k ih =>
    intro acc
    unfold moving_steps
    split
    · rfl
    · exact (ih (moving_entity_step acc.1 eid acc.2.1)).trans
        (moving_entity_step_hits acc.1 eid acc.2.1)

theorem moving_system_hits (s : State) :
    (moving_system s).damage_hits = s.damage_hits := by
  unfold moving_system
  refine hits_foldl _ (fun s0 kv => ?_) s.moving s
  exact moving_steps_hits kv.1 kv.2.speed.toNat (s0, kv.2, false)

theorem entity_pathfinding_hits (s : State) (ul : Pm UsageLimit)
    (eid : EntityID) :
    (entity_pathfinding s ul eid).damage_hits = s.damage_hits := by
  unfold entity_pathfinding
  repeat' first | split | dsimp only

theorem pathfinding_system_hits (s : State) :
    (pathfinding_system s).damage_hits = s.damage_hits := by
  unfold pathfinding_system
  refine hits_foldl _ (fun s0 eid => ?_) (Pm.keys s.pathfinding) s
  exact entity_pathfinding_hits s0 s.usage_limit eid

theorem tile_reward_system_hits (s : State) (eid : EntityID) :
    (tile_reward_system s eid).damage_hits = s.damage_hits := by
  unfold tile_reward_system
  repeat' first | split | dsimp only

theorem win_system_hits (obj : ObjectiveFn) (s : State) (aid : EntityID) :
    (win_system obj s aid).damage_hits = s.damage_hits := by
  unfold win_system
  repeat' first | split | dsimp only

theorem lose_system_hits (s : State) (aid : EntityID) :
    (lose_system s aid).damage_hits = s.damage_hits := by
  unfold lose_system
  repeat' first | split | dsimp only

theorem portal_system_entity_hits (s : State) (aug : Trail)
    (pid : EntityID) :
    (portal_system_entity s aug pid).damage_hits = s.damage_hits := by
  unfold portal_system_entity
  repeat' first | split | dsimp only

theorem portal_system_hits (s : State) :
    (portal_system s).damage_hits = s.damage_hits := by
  unfold portal_system
  refine hits_foldl _ (fun s0 pid => ?_) (Pm.keys s.portal) s
  exact portal_system_entity_hits s0
    (get_augmented_trail s (Pm.keys s.collidable)) pid

theorem push_system_hits (mv : MoveFnSpec) (s : State) (eid : EntityID)
    (np : Position) :
    (push_system mv s eid np).damage_hits = s.damage_hits := by
  unfold push_system
  repeat' first | split | dsimp only

theorem movement_system_hits (s : State) (eid : EntityID) (np : Position) :
    (movement_system s eid np).damage_hits = s.damage_hits := by
  unfold movement_system
  repeat' first | split | dsimp only

theorem substep_hits (mv : MoveFnSpec) (s : State) (aid : EntityID)
    (np : Position) :
    (substep mv s aid np).damage_hits = s.damage_hits :=
  (movement_system_hits (push_system mv s aid np) aid np).trans
    (push_system_hits mv s aid np)

theorem unlock_system_hits (s : State) (eid : EntityID) :
    (unlock_system s eid).damage_hits = s.damage_hits := by
  unfold unlock_system
  split
  · dsimp only
    refine hits_foldl _ (fun s0 kv => ?_) _ s
    dsimp only
    repeat' split
    all_goals rfl
  · rfl

theorem collectible_system_hits (s : State) (eid : EntityID) :
    (collectible_system s eid).damage_hits = s.damage_hits := by
  unfold collectible_system
  repeat' first | split | dsimp only

theorem after_substep_logstep (obj : ObjectiveFn) (s : State)
    (aid : EntityID) (s2 : State) (l : List DamageHit)
    (h : after_substep obj s aid = .ok (s2, l)) :
    LogStep s.damage_hits s2.damage_hits l := by
  unfold after_substep at h
  cases hpos : Pm.get s.position aid with
  | none =>
    rw [hpos] at h
    exact absurd h (by simp)
  | some pos =>
    rw [hpos] at h
    dsimp only at h
    cases hd : damage_system (portal_system (add_trail_position s aid pos))
        with
    | error e =>
      rw [hd] at h
      simp only [bind, Except.bind] at h
      exact absurd h (by simp)
    | ok p =>
      obtain ⟨s4, log⟩ := p
      rw [hd] at h
      simp only [bind, Except.bind] at h
      rw [Except.ok.injEq, Prod.mk.injEq] at h
      obtain ⟨h1, h2⟩ := h
      subst h2
      have hds := (damage_system_spec _ _ _ hd).1
      have hpre : (portal_system (add_trail_position s aid pos)).damage_hits
          = s.damage_hits :=
        portal_system_hits (add_trail_position s aid pos)
      rw [hpre] at hds
      have hs2 : s2.damage_hits = s4.damage_hits := by
        rw [← h1]
        exact (lose_system_hits _ aid).trans
          ((win_system_hits obj _ aid).trans (tile_reward_system_hits s4 aid))
      rw [hs2]
      exact hds

theorem move_substeps_logstep (mv : MoveFnSpec) (obj : ObjectiveFn)
    (aid : EntityID) :
    ∀ (ps : List Position) (s s2 : State) (l : List DamageHit) (b : Bool),
      move_substeps mv obj aid ps s = .ok (s2, l, b) →
      LogStep s.damage_hits s2.damage_hits l := by
  intro ps
  induction ps with
  | nil =>
    intro s s2 l b h
    unfold move_substeps at h
    rw [Except.ok.injEq, Prod.mk.injEq] at h
    obtain ⟨h1, h2⟩ := h
    rw [Prod.mk.injEq] at h2
    rw [← h1, ← h2.1]
    exact LogStep.rfl s.damage_hits
  | cons p rest ih =>
    intro s s2 l b h
    unfold move_substeps at h
    cases has : after_substep obj (substep mv s aid p) aid with
    | error e =>
      rw [has] at h
      simp only [bind, Except.bind] at h
      exact absurd h (by simp)
    | ok q =>
      obtain ⟨sA, log⟩ := q
      rw [has] at h
      simp only [bind, Except.bind] at h
      have hA : LogStep s.damage_hits sA.damage_hits log := by
        have h0 := after_substep_logstep obj (substep mv s aid p) aid sA
          log has
        rwa [substep_hits] at h0
      split at h
      · rw [Except.ok.injEq, Prod.mk.injEq] at h
        obtain ⟨h1, h2⟩ := h
        rw [Prod.mk.injEq] at h2
        rw [← h1, ← h2.1]
        exact hA
      · cases hms : move_substeps mv obj aid rest sA with
        | error e =>
          rw [hms] at h
          simp only [bind, Except.bind] at h
          exact absurd h (by simp)
        | ok q2 =>
          obtain ⟨sB, log2, st⟩ := q2
          rw [hms] at h
          simp only [bind, Except.bind] at h
          rw [Except.ok.injEq, Prod.mk.injEq] at h
          obtain ⟨h1, h2⟩ := h
          rw [Prod.mk.injEq] at h2
          rw [← h1, ← h2.1]
          exact LogStep.comp hA (ih sA sB log2 st hms)

theorem move_rounds_logstep (mv : MoveFnSpec) (obj : ObjectiveFn)
    (a : Action) (aid : EntityID) (cp : Position) :
    ∀ (n : Nat) (s s2 : State) (l : List DamageHit),
      move_rounds mv obj a aid cp n s = .ok (s2, l) →
      LogStep s.damage_hits s2.damage_hits l := by
  intro n
  induction n with
  | zero =>
    intro s s2 l h
    unfold move_rounds at h
    rw [Except.ok.injEq, Prod.mk.injEq] at h
    obtain ⟨h1, h2⟩ := h
    rw [← h1, ← h2]
    exact LogStep.rfl s.damage_hits
  | succ k ih =>
    intro s s2 l h
    unfold move_rounds at h
    dsimp only at h
    cases hms : move_substeps mv obj aid
        (if (mv.fn s aid a).isEmpty then [cp] else mv.fn s aid a) s with
    | error e =>
      rw [hms] at h
      simp only [bind, Except.bind] at h
      exact absurd h (by simp)
    | ok q =>
      obtain ⟨sA, log, stopped⟩ := q
      rw [hms] at h
      simp only [bind, Except.bind] at h
      have hA := move_substeps_logstep mv obj aid _ s sA log stopped hms
      split at h
      · rw [Except.ok.injEq, Prod.mk.injEq] at h
        obtain ⟨h1, h2⟩ := h
        rw [← h1, ← h2]
        exact hA
      · cases hmr : move_rounds mv obj a aid cp k sA with
        | error e =>
          rw [hmr] at h
          simp only [bind, Except.bind] at h
          exact absurd h (by simp)
        | ok q2 =>
          obtain ⟨sB, log2⟩ := q2
          rw [hmr] at h
          simp only [bind, Except.bind] at h
          rw [Except.ok.injEq, Prod.mk.injEq] at h
          obtain ⟨h1, h2⟩ := h
          rw [← h1, ← h2]
          exact LogStep.comp hA (ih sA sB log2 hmr)

theorem step_move_logstep (mv : MoveFnSpec) (obj : ObjectiveFn) (s : State)
    (a : Action) (aid : EntityID) (s2 : State) (l : List DamageHit)
    (h : step_move mv obj s a aid = .ok (s2, l)) :
    LogStep s.damage_hits s2.damage_hits l := by
  unfold step_move at h
  cases hpos : Pm.get s.position aid with
  | none =>
    rw [hpos] at h
    rw [Except.ok.injEq, Prod.mk.injEq] at h
    obtain ⟨h1, h2⟩ := h
    rw [← h1, ← h2]
    exact LogStep.rfl s.damage_hits
  | some cp =>
    rw [hpos] at h
    dsimp only at h
    cases hst : Pm.get s.status aid with
    | none =>
      rw [hst] at h
      exact move_rounds_logstep mv obj a aid cp _ s s2 l h
    | some st =>
      rw [hst] at h
      dsimp only at h
      cases husp : use_status_effect_if_present st.effect_ids
          [Pm.keys s.speed] s.time_limit s.usage_limit with
      | mk ul sel =>
        rw [husp] at h
        cases sel with
        | none =>
          dsimp only at h
          exact move_rounds_logstep mv obj a aid cp _ s s2 l h
        | some eff =>
          dsimp only at h
          exact move_rounds_logstep mv obj a aid cp _
            { s with usage_limit := ul } s2 l h

theorem nodup_count_le_one {α : Type} [BEq α] [LawfulBEq α] :
    ∀ (l : List α), l.Nodup → ∀ a, l.count a ≤ 1 := by
  intro l
  induction l with
  | nil =>
    intro _ a
    simp
  | cons b t ih =>
    intro h a
    rw [List.count_cons]
    rcases List.nodup_cons.mp h with ⟨hb, ht⟩
    by_cases hba : b = a
    · subst hba
      have h0 : t.count b = 0 := List.count_eq_zero.mpr hb
      simp [h0]
    · have hfalse : (b == a) = false := beq_eq_false_iff_ne.mpr hba
      simp [hfalse, ih ht a]

theorem step_pipeline_log_nodup (mv : MoveFnSpec) (obj : ObjectiveFn)
    (s : State) (a : Action) (aid : EntityID) (s2 : State)
    (l : List DamageHit)
    (h : step_pipeline mv obj s a aid = .ok (s2, l)) : l.Nodup := by
  unfold step_pipeline at h
  dsimp only at h
  set s5 : State := status_tick_system (pathfinding_system (moving_system
    (position_system { s with damage_hits := [], trail := [] }))) with hs5
  cases a with
  | up =>
    dsimp only at h
    cases hsm : step_move mv obj s5 Action.up aid with
    | error e =>
      rw [hsm] at h
      simp only [bind, Except.bind] at h
      exact absurd h (by simp)
    | ok p =>
      obtain ⟨sM, log⟩ := p
      rw [hsm] at h
      simp only [bind, Except.bind] at h
      split at h
      · rename_i hcond
        exact absurd hcond (by decide)
      · rw [Except.ok.injEq, Prod.mk.injEq] at h
        rw [← h.2]
        exact (step_move_logstep mv obj s5 Action.up aid sM log hsm).2.1
  | down =>
    dsimp only at h
    cases hsm : step_move mv obj s5 Action.down aid with
    | error e =>
      rw [hsm] at h
      simp only [bind, Except.bind] at h
      exact absurd h (by simp)
    | ok p =>
      obtain ⟨sM, log⟩ := p
      rw [hsm] at h
      simp only [bind, Except.bind] at h
      split at h
      · rename_i hcond
        exact absurd hcond (by decide)
      · rw [Except.ok.injEq, Prod.mk.injEq] at h
        rw [← h.2]
        exact (step_move_logstep mv obj s5 Action.down aid sM log hsm).2.1
  | left =>
    dsimp only at h
    cases hsm : step_move mv obj s5 Action.left aid with
    | error e =>
      rw [hsm] at h
      simp only [bind, Except.bind] at h
      exact absurd h (by simp)
    | ok p =>
      obtain ⟨sM, log⟩ := p
      rw [hsm] at h
      simp only [bind, Except.bind] at h
      split at h
      · rename_i hcond
        exact absurd hcond (by decide)
      · rw [Except.ok.injEq, Prod.mk.injEq] at h
        rw [← h.2]
        exact (step_move_logstep mv obj s5 Action.left aid sM log hsm).2.1
  | right =>
    dsimp only at h
    cases hsm : step_move mv obj s5 Action.right aid with
    | error e =>
      rw [hsm] at h
      simp only [bind, Except.bind] at h
      exact absurd h (by simp)
    | ok p =>
      obtain ⟨sM, log⟩ := p
      rw [hsm] at h
      simp only [bind, Except.bind] at h
      split at h
      · rename_i hcond
        exact absurd hcond (by decide)
      · rw [Except.ok.injEq, Prod.mk.injEq] at h
        rw [← h.2]
        exact (step_move_logstep mv obj s5 Action.right aid sM log hsm).2.1
  | use_key =>
    dsimp only at h
    simp only [bind, Except.bind] at h
    split at h
    · cases haft : after_substep obj (unlock_system s5 aid) aid with
      | error e =>
        rw [haft] at h
        simp only [bind, Except.bind] at h
        exact absurd h (by simp)
      | ok q =>
        obtain ⟨s3, log2⟩ := q
        rw [haft] at h
        simp only [bind, Except.bind, List.nil_append] at h
        rw [Except.ok.injEq, Prod.mk.injEq] at h
        rw [← h.2]
        exact (after_substep_logstep obj (unlock_system s5 aid) aid s3 log2
          haft).2.1
    · rename_i hcond
      exact absurd (by decide) hcond
  | pick_up =>
    dsimp only at h
    simp only [bind, Except.bind] at h
    split at h
    · cases haft : after_substep obj (collectible_system s5 aid) aid with
      | error e =>
        rw [haft] at h
        simp only [bind, Except.bind] at h
        exact absurd h (by simp)
      | ok q =>
        obtain ⟨s3, log2⟩ := q
        rw [haft] at h
        simp only [bind, Except.bind, List.nil_append] at h
        rw [Except.ok.injEq, Prod.mk.injEq] at h
        rw [← h.2]
        exact (after_substep_logstep obj (collectible_system s5 aid) aid s3
          log2 haft).2.1
    · rename_i hcond
      exact absurd (by decide) hcond
  | wait =>
    dsimp only at h
    simp only [bind, Except.bind] at h
    split at h
    · cases haft : after_substep obj s5 aid with
      | error e =>
        rw [haft] at h
        simp only [bind, Except.bind] at h
        exact absurd h (by simp)
      | ok q =>
        obtain ⟨s3, log2⟩ := q
        rw [haft] at h
        simp only [bind, Except.bind, List.nil_append] at h
        rw [Except.ok.injEq, Prod.mk.injEq] at h
        rw [← h.2]
        exact (after_substep_logstep obj s5 aid s3 log2 haft).2.1
    · rename_i hcond
      exact absurd (by decide) hcond

/-- C1: across all damage-system invocations within one call to step,
damage from a given damager is applied to a given target at most once per
turn: every (target, damager, turn) triple occurs at most once in the
concatenated log of applied damage events returned by step, no matter how
many sub-steps ran. -/
theorem step_damage_at_most_once (move_fn : MoveFnSpec)
    (objective_fn : ObjectiveFn) (s : State) (a : Action)
    (aid : Option EntityID) (s2 : State) (l : List DamageHit)
    (h : step move_fn objective_fn s a aid = .ok (s2, l))
    (t d : EntityID) (n : Int) :
    l.count (t, d, n) ≤ 1 := by
  have hr : ∃ i, step_resolved move_fn objective_fn s a i = .ok (s2, l) := by
    unfold step at h
    cases aid with
    | some i => exact ⟨i, h⟩
    | none =>
      cases hk : Pm.keys s.agent with
      | nil =>
        rw [hk] at h
        exact absurd h (by simp)
      | cons i rest =>
        rw [hk] at h
        exact ⟨i, h⟩
  obtain ⟨i, hr⟩ := hr
  unfold step_resolved at hr
  split at hr
  · rw [Except.ok.injEq, Prod.mk.injEq] at hr
    rw [← hr.2]
    simp
  · split at hr
    · rw [Except.ok.injEq, Prod.mk.injEq] at hr
      rw [← hr.2]
      simp
    · have hnd := step_pipeline_log_nodup move_fn objective_fn s a i s2 l hr
      exact nodup_count_le_one l hnd (t, d, n)

/-! ## Witnesses -/

/-- C7 witness: a concrete dead-agent board and a concrete already-won
board take the two early exits. -/
theorem step_early_exit_witness :
    step mv0 obj0 dead_agent_state .wait (some 1) =
      .ok ({ dead_agent_state with lose := true }, []) ∧
    step mv0 obj0 won_state .wait (some 1) = .ok (won_state, []) :=
  ⟨(step_early_exit mv0 obj0 dead_agent_state .wait 1).1 (by decide),
   (step_early_exit mv0 obj0 won_state .wait 1).2 (by decide)
     (Or.inl (by decide))⟩

/-- C6 witness: stepping the already-won board keeps win set. -/
theorem step_terminal_flags_monotonic_witness : won_state.win = true :=
  (step_terminal_flags_monotonic mv0 obj0 won_state .wait (some 1)
    won_state [] rfl).1 rfl

/-- C2 witness: the concrete push succeeds and the actor lands on the
vacated cell. -/
theorem push_system_spec_witness :
    Pm.get (push_system mv0 push_state 1 ⟨1, 0⟩).position 1 =
      some ⟨1, 0⟩ :=
  (((push_system_spec mv0 push_state 1 ⟨0, 0⟩ ⟨1, 0⟩ (by decide) (by decide)
    (by decide) (by decide)).2 ⟨2, 0⟩ (by decide)).2 (by decide)).1

/-- C8 witness: consuming the selected usage-limited effect decrements its
amount from two to one. -/
theorem get_status_effect_spec_witness :
    Pm.get (use_status_effect 6 [(6, (⟨2⟩ : UsageLimit))]) 6 =
      some ⟨1⟩ :=
  ((get_status_effect_spec [5, 6] [[5, 6]] [] [(6, ⟨2⟩)]).2.2.1 6 ⟨2⟩
    (by decide)).1

/-- C9 witness: a concrete negative-amount damager raises, and a concrete
all-non-negative state resolves damage without an error. -/
theorem damage_negative_amount_raises_witness :
    apply_single_damage negative_damage_state 1 2
      ⟨negative_damage_state.health, negative_damage_state.dead,
        negative_damage_state.usage_limit, []⟩ =
      .error "Damager has negative damage" ∧
    ∃ r, damage_system (empty_state 2 2) = .ok r :=
  ⟨damage_negative_amount_raises.1 negative_damage_state 1 2 _ ⟨-5⟩
      (by decide) (fun st hst => nomatch hst) (by decide) (by decide),
   damage_negative_amount_raises.2 (empty_state 2 2)
     (fun did d hd => nomatch hd)⟩

/-- C10 witness: on a concrete state the damage log of damage_system has
no self-damage event. -/
theorem damage_system_no_self_damage_witness :
    ((1, 1, 0) : DamageHit) ∉ ([] : List DamageHit) :=
  (damage_system_no_self_damage apart_state apart_state [] rfl).1 1 0

/-- C3 witness: on the concrete chain state the entity entering portal 1
is relocated to the pair cell by that portal invocation. -/
theorem portal_system_spec_witness :
    Pm.get (portal_system_entity portal_chain_state
      (get_augmented_trail portal_chain_state
        (Pm.keys portal_chain_state.collidable)) 1).position 10 =
      some ⟨1, 0⟩ :=
  (portal_system_spec.1 portal_chain_state 1 10 ⟨2⟩ ⟨0, 0⟩ ⟨1, 0⟩
    (by decide) (by decide) (by decide) (by decide) (by decide)).1
    ⟨by decide, by decide⟩

/-- C1 witness: one concrete step over an overlapping damager applies
each (target, damager, turn) hit at most once. -/
theorem step_damage_at_most_once_witness :
    ∃ r, step mv0 obj0 overlap_state .wait (some 1) = .ok r ∧
      r.2.count (1, 2, 0) ≤ 1 := by
  cases h : step mv0 obj0 overlap_state .wait (some 1) with
  | error e =>
    have hok : (step mv0 obj0 overlap_state .wait (some 1)).toOption.isSome
        = true := by decide
    rw [h] at hok
    exact absurd hok (by simp [Except.toOption])
  | ok r =>
    exact ⟨r, rfl, step_damage_at_most_once mv0 obj0 overlap_state .wait
      (some 1) r.1 r.2 (by rw [h]) 1 2 0⟩

end GridUniverse
